import Mathlib

/-!
# Double pendulum simulation (`src/main.cpp`): shallow embedding

The C++ program keeps its numbers in `float` and `double`.  The embedding is
polymorphic in a linearly ordered field `F` of scalars, so every definition is
an ordinary computable function; the theorems instantiate `F` with the real
numbers.  Rounding, infinities and NaN are therefore not modelled, and a
division by zero follows the field convention `x / 0 = 0`.

The functions `sin`, `cos`, `atan2` and `hypot` come from the C maths library;
the program's functions take them as a record `Libm F`.
-/

namespace DoublePendulum

/-! ## Library functions and constants -/

/-- The four C maths library functions that `main.cpp` calls. -/
structure Libm (F : Type) where
  sin : F → F
  cos : F → F
  atan2 : F → F → F
  hypot : F → F → F

/-- The real-number reading of the maths library: `hypot x y` is `√(x² + y²)`
and `atan2 y x` is the argument of the complex number `x + y i`, except where
both arguments are zero.  There the C function goes by the signs of the
zeros, which the reals do not have.  The program's only call is
`atan2(dx, -dy)` at `main.cpp:145`, where `dx` and `dy` are results of
`... * 6.0 - 3.0` and so are `+0.0` when they are zero: the call is
`atan2(+0.0, -0.0)`, whose value is π. -/
noncomputable def realLibm : Libm ℝ where
  sin := Real.sin
  cos := Real.cos
  atan2 := fun y x => if y = 0 ∧ x = 0 then Real.pi else Complex.arg ⟨x, y⟩
  hypot := fun x y => Real.sqrt (x ^ 2 + y ^ 2)

/-- Value of `GLFW_MOUSE_BUTTON_LEFT` in the GLFW header. -/
def GLFW_MOUSE_BUTTON_LEFT : Int := 0

/-- Value of `GLFW_PRESS` in the GLFW header. -/
def GLFW_PRESS : Int := 1

/-- Value of `GLFW_RELEASE` in the GLFW header. -/
def GLFW_RELEASE : Int := 0

section Defs

variable {F : Type} [LinearOrderedField F]

/-- The constant `PI` of `main.cpp:9`. -/
def PI : F := 3.14159265358979323846

/-- The constant `gravity` of `main.cpp:10`. -/
def gravity : F := 9.81

/-- The constant `deltaTime` of `main.cpp:11`. -/
def deltaTime : F := 0.016

/-- The constant `damping` of `main.cpp:12`. -/
def damping : F := 0.9999

/-- The constant `trailDuration` of `main.cpp:13`. -/
def trailDuration : F := 20

end Defs

/-! ## Data model -/

/-- One link, `class Pendulum` of `main.cpp:16`. -/
structure Pendulum (F : Type) where
  angle : F
  angleSpeed : F
  length : F
  mass : F

/-- The constructor `Pendulum(angle, length, mass)`: the angular velocity
starts at zero. -/
def Pendulum.init {F : Type} [LinearOrderedField F] (angle length mass : F) : Pendulum F :=
  ⟨angle, 0, length, mass⟩

/-- One trail sample, `struct TrailPoint` of `main.cpp:29`. -/
structure TrailPoint (F : Type) where
  x : F
  y : F
  alpha : F
  timeStamp : F

/-- The whole mutable state of the program: the four mouse globals of
`main.cpp:37-39` and the two locals of `main` that `update` receives by
reference.  The trail is a deque, oldest sample first. -/
structure State (F : Type) where
  mousePressed : Bool
  mouseX : F
  mouseY : F
  draggingLastPendulum : Bool
  pendulums : List (Pendulum F)
  trail : List (TrailPoint F)

section Ops

variable {F : Type} [LinearOrderedField F]

/-! ## Operations -/

/-- Pixel coordinates to simulation coordinates, `main.cpp:42-46`; the result
is the pair `(outX, outY)`. -/
def windowToOpenGLCoordinates (x y : F) (windowWidth windowHeight : Int) : F × F :=
  ((x / (windowWidth : F)) * 6 - 3,
   (((windowHeight : F) - y) / (windowHeight : F)) * 6 - 3)

/-- The mouse button handler of `main.cpp:49-64`. -/
def mouseButtonCallback (s : State F) (button action : Int) : State F :=
  if button = GLFW_MOUSE_BUTTON_LEFT then
    if action = GLFW_PRESS then
      { s with mousePressed := true, draggingLastPendulum := true }
    else if action = GLFW_RELEASE then
      { s with mousePressed := false, draggingLastPendulum := false }
    else s
  else s

/-- The cursor handler of `main.cpp:67-71`. -/
def cursorPositionCallback (s : State F) (xpos ypos : F) : State F :=
  { s with mouseX := xpos, mouseY := ypos }

/-- The walk along the chain from the anchor `(0, 0)` that `update` runs at
`main.cpp:125-131` and `main.cpp:187-193`: the position of the last bob. -/
def lastBob (M : Libm F) (pendulums : List (Pendulum F)) : F × F :=
  pendulums.foldl
    (fun acc pendulum =>
      (acc.1 + pendulum.length * M.sin pendulum.angle,
       acc.2 - pendulum.length * M.cos pendulum.angle))
    (0, 0)

/-- The walk of `display`, `main.cpp:77-102`: starting from `(x, y)`, the far
end `(x_new, y_new)` of each link in order, which is where the rod ends and
the bob is drawn. -/
def displayWalk (M : Libm F) : F × F → List (Pendulum F) → List (F × F)
  | _, [] => []
  | (x, y), pendulum :: rest =>
    let x_new := x + pendulum.length * M.sin pendulum.angle
    let y_new := y - pendulum.length * M.cos pendulum.angle
    (x_new, y_new) :: displayWalk M (x_new, y_new) rest

/-- The bob positions that `display` draws: the walk from the anchor
`x = 0.0`, `y = 0.0` of `main.cpp:77-78`. -/
def display (M : Libm F) (pendulums : List (Pendulum F)) : List (F × F) :=
  displayWalk M (0, 0) pendulums

/-- The capture test at the head of `update`, `main.cpp:119-137`. -/
def capture (M : Libm F) (s : State F) (windowWidth windowHeight : Int) : State F :=
  if s.mousePressed && !s.draggingLastPendulum then
    let mouse := windowToOpenGLCoordinates s.mouseX s.mouseY windowWidth windowHeight
    let last := lastBob M s.pendulums
    if M.hypot (last.1 - mouse.1) (last.2 - mouse.2) < 0.1 then
      { s with draggingLastPendulum := true }
    else s
  else s

/-- Assignment through `pendulums.back()`: the last link is replaced by its
image under `f`.  On an empty vector `back()` is undefined: `none`. -/
def modifyBack (f : Pendulum F → Pendulum F) : List (Pendulum F) → Option (List (Pendulum F))
  | [] => none
  | [p] => some [f p]
  | p :: q :: rest => (modifyBack f (q :: rest)).map (fun tl => p :: tl)

/-- The drag branch of `update`, `main.cpp:139-147`. -/
def dragLast (M : Libm F) (s : State F) (windowWidth windowHeight : Int) :
    Option (List (Pendulum F)) :=
  let mouse := windowToOpenGLCoordinates s.mouseX s.mouseY windowWidth windowHeight
  let dx := mouse.1
  let dy := mouse.2
  modifyBack (fun p => { p with angle := M.atan2 dx (-dy), angleSpeed := 0 }) s.pendulums

/-- The divisor `denom` of the inner link's acceleration, `main.cpp:167`. -/
def denom1 (M : Libm F) (p1 p2 : Pendulum F) : F :=
  p1.length * (2 * p1.mass + p2.mass - p2.mass * M.cos (2 * p1.angle - 2 * p2.angle))

/-- The divisor `denom` of the outer link's acceleration, `main.cpp:174`. -/
def denom2 (M : Libm F) (p1 p2 : Pendulum F) : F :=
  p2.length * (2 * p1.mass + p2.mass - p2.mass * M.cos (2 * p1.angle - 2 * p2.angle))

/-- The physics branch of `update`, `main.cpp:148-184`.  It reads and writes
`pendulums[0]` and `pendulums[1]`; on a shorter vector that is undefined:
`none`. -/
def integrate (M : Libm F) : List (Pendulum F) → Option (List (Pendulum F))
  | p1 :: p2 :: rest =>
    let m1 := p1.mass
    let m2 := p2.mass
    let l1 := p1.length
    let l2 := p2.length
    let a1 := p1.angle
    let a2 := p2.angle
    let a1_v := p1.angleSpeed
    let a2_v := p2.angleSpeed
    let num1 := -gravity * (2 * m1 + m2) * M.sin a1
    let num2 := -m2 * gravity * M.sin (a1 - 2 * a2)
    let num3 := -2 * M.sin (a1 - a2) * m2
    let num4 := a2_v * a2_v * l2 + a1_v * a1_v * l1 * M.cos (a1 - a2)
    let denom := l1 * (2 * m1 + m2 - m2 * M.cos (2 * a1 - 2 * a2))
    let a1_a := (num1 + num2 + num3 * num4) / denom
    let num1 := 2 * M.sin (a1 - a2)
    let num2 := a1_v * a1_v * l1 * (m1 + m2)
    let num3 := gravity * (m1 + m2) * M.cos a1
    let num4 := a2_v * a2_v * l2 * m2 * M.cos (a1 - a2)
    let denom := l2 * (2 * m1 + m2 - m2 * M.cos (2 * a1 - 2 * a2))
    let a2_a := num1 * (num2 + num3 + num4) / denom
    let speed1 := (p1.angleSpeed + a1_a * deltaTime) * damping
    let angle1 := p1.angle + speed1 * deltaTime
    let speed2 := (p2.angleSpeed + a2_a * deltaTime) * damping
    let angle2 := p2.angle + speed2 * deltaTime
    some ({ p1 with angle := angle1, angleSpeed := speed1 } ::
          { p2 with angle := angle2, angleSpeed := speed2 } :: rest)
  | _ => none

/-- The expiry loop of `main.cpp:197-200`: pop the front while it is older
than `trailDuration`. -/
def expire (currentTime : F) : List (TrailPoint F) → List (TrailPoint F)
  | [] => []
  | front :: rest =>
    if currentTime - front.timeStamp > trailDuration then expire currentTime rest
    else front :: rest

/-- The opacity loop of `main.cpp:203-206`. -/
def refreshAlpha (currentTime : F) (trail : List (TrailPoint F)) : List (TrailPoint F) :=
  trail.map (fun point =>
    { point with alpha := 1 - (currentTime - point.timeStamp) / trailDuration })

/-- The trail part of `update`, `main.cpp:186-206`, run on the chain as the
branch above left it. -/
def updateTrail (M : Libm F) (pendulums : List (Pendulum F)) (trail : List (TrailPoint F))
    (currentTime : F) : List (TrailPoint F) :=
  let tip := lastBob M pendulums
  refreshAlpha currentTime (expire currentTime (trail ++ [⟨tip.1, tip.2, 1, currentTime⟩]))

/-- The function `update` of `main.cpp:117-207`.  The result is `none` exactly
when the C++ indexes the vector out of range. -/
def update (M : Libm F) (s : State F) (windowWidth windowHeight : Int) (currentTime : F) :
    Option (State F) :=
  let s1 := capture M s windowWidth windowHeight
  let moved :=
    if s1.draggingLastPendulum then dragLast M s1 windowWidth windowHeight
    else integrate M s1.pendulums
  match moved with
  | none => none
  | some pendulums =>
    some { s1 with
      pendulums := pendulums
      trail := updateTrail M pendulums s1.trail currentTime }

/-! ## The host loop -/

/-- What the host delivers to the program: the two callbacks registered at
`main.cpp:237-238`, and one pass of the main loop, which calls `update`
with the current time. -/
inductive HostEvent (F : Type) where
  | mouseButton (button action : Int)
  | cursorPosition (xpos ypos : F)
  | frame (currentTime : F)

/-- The chain that `main` builds at `main.cpp:242-245`. -/
def initialPendulums : List (Pendulum F) :=
  [Pendulum.init (PI / 4) 1 1, Pendulum.init (PI / 4) 1 1]

/-- The state when the main loop is entered: the globals as initialised at
`main.cpp:37-39` (the two `double`s are zero-initialised), the startup chain
and an empty trail. -/
def initialState : State F :=
  ⟨false, 0, 0, false, initialPendulums, []⟩

/-- One host event.  The window is 800 by 800, `main.cpp:257`. -/
def step (M : Libm F) (s : State F) : HostEvent F → Option (State F)
  | .mouseButton button action => some (mouseButtonCallback s button action)
  | .cursorPosition xpos ypos => some (cursorPositionCallback s xpos ypos)
  | .frame currentTime => update M s 800 800 currentTime

/-- A finite sequence of host events, in order. -/
def run (M : Libm F) (s : State F) : List (HostEvent F) → Option (State F)
  | [] => some s
  | e :: es =>
    match step M s e with
    | none => none
    | some s1 => run M s1 es

/-- The times of the `frame` events of a sequence, in order. -/
def frameTimes : List (HostEvent F) → List F
  | [] => []
  | .frame currentTime :: es => currentTime :: frameTimes es
  | _ :: es => frameTimes es

end Ops

end DoublePendulum

namespace DoublePendulum

/-! ## Evaluation lemmas -/

section Lemmas

variable {F : Type} [LinearOrderedField F]

lemma lastBob_pair (M : Libm F) (p1 p2 : Pendulum F) :
    lastBob M [p1, p2] =
      (0 + p1.length * M.sin p1.angle + p2.length * M.sin p2.angle,
       0 - p1.length * M.cos p1.angle - p2.length * M.cos p2.angle) := rfl

lemma capture_mousePressed (M : Libm F) (s : State F) (w h : Int) :
    (capture M s w h).mousePressed = s.mousePressed := by
  unfold capture
  dsimp only
  split_ifs <;> rfl

lemma capture_mouseX (M : Libm F) (s : State F) (w h : Int) :
    (capture M s w h).mouseX = s.mouseX := by
  unfold capture
  dsimp only
  split_ifs <;> rfl

lemma capture_mouseY (M : Libm F) (s : State F) (w h : Int) :
    (capture M s w h).mouseY = s.mouseY := by
  unfold capture
  dsimp only
  split_ifs <;> rfl

lemma capture_pendulums (M : Libm F) (s : State F) (w h : Int) :
    (capture M s w h).pendulums = s.pendulums := by
  unfold capture
  dsimp only
  split_ifs <;> rfl

lemma capture_trail (M : Libm F) (s : State F) (w h : Int) :
    (capture M s w h).trail = s.trail := by
  unfold capture
  dsimp only
  split_ifs <;> rfl

/-- The drag flag after the capture test. -/
lemma capture_dragging (M : Libm F) (s : State F) (w h : Int) :
    (capture M s w h).draggingLastPendulum = true ↔
      s.draggingLastPendulum = true ∨
        (s.mousePressed = true ∧
          M.hypot ((lastBob M s.pendulums).1 - (windowToOpenGLCoordinates s.mouseX s.mouseY w h).1)
            ((lastBob M s.pendulums).2 - (windowToOpenGLCoordinates s.mouseX s.mouseY w h).2)
            < 0.1) := by
  unfold capture
  cases hp : s.mousePressed <;> cases hd : s.draggingLastPendulum <;> simp [hp, hd]
  split_ifs with hlt <;> simp [hd, hlt]

/-- The result of `update` when the tick runs the physics branch. -/
lemma update_of_free (M : Libm F) (s : State F) (w h : Int) (t : F)
    (hd : (capture M s w h).draggingLastPendulum = false) :
    update M s w h t =
      (integrate M s.pendulums).map (fun ps =>
        { capture M s w h with pendulums := ps, trail := updateTrail M ps s.trail t }) := by
  unfold update
  simp only [hd, capture_pendulums, capture_trail]
  cases integrate M s.pendulums <;> rfl

/-- The result of `update` when the tick runs the drag branch. -/
lemma update_of_drag (M : Libm F) (s : State F) (w h : Int) (t : F)
    (hd : (capture M s w h).draggingLastPendulum = true) :
    update M s w h t =
      (dragLast M s w h).map (fun ps =>
        { capture M s w h with pendulums := ps, trail := updateTrail M ps s.trail t }) := by
  unfold update
  have hdl : dragLast M (capture M s w h) w h = dragLast M s w h := by
    unfold dragLast
    simp only [capture_mouseX, capture_mouseY, capture_pendulums]
  simp only [hd, hdl, capture_trail, if_true]
  cases dragLast M s w h <;> rfl

end Lemmas

/-- The capture test on a two-link chain over the reals, with the distance
written out. -/
lemma capture_dragging_two (mp d : Bool) (mx my : ℝ) (p1 p2 : Pendulum ℝ)
    (trail : List (TrailPoint ℝ)) (w h : Int) :
    (capture realLibm ⟨mp, mx, my, d, [p1, p2], trail⟩ w h).draggingLastPendulum = true ↔
      d = true ∨
        (mp = true ∧
          Real.sqrt
            ((p1.length * Real.sin p1.angle + p2.length * Real.sin p2.angle
                - (windowToOpenGLCoordinates mx my w h).1) ^ 2
              + (-(p1.length * Real.cos p1.angle + p2.length * Real.cos p2.angle)
                - (windowToOpenGLCoordinates mx my w h).2) ^ 2) < 0.1) := by
  rw [capture_dragging]
  simp only [lastBob_pair, realLibm]
  have e1 : (0 + p1.length * Real.sin p1.angle + p2.length * Real.sin p2.angle
      - (windowToOpenGLCoordinates mx my w h).1) =
      (p1.length * Real.sin p1.angle + p2.length * Real.sin p2.angle
      - (windowToOpenGLCoordinates mx my w h).1) := by ring
  have e2 : (0 - p1.length * Real.cos p1.angle - p2.length * Real.cos p2.angle
      - (windowToOpenGLCoordinates mx my w h).2) =
      (-(p1.length * Real.cos p1.angle + p2.length * Real.cos p2.angle)
      - (windowToOpenGLCoordinates mx my w h).2) := by ring
  rw [e1, e2]

/-! ## The physics step -/

/-- C1: a tick of `update` that starts Free and captures nothing (the button
is up, or the pointer is not within 0.1 of the outer endpoint) replaces the
two links by the semi-implicit Euler step of the stated equations: both
accelerations are computed from the pre-tick values, each velocity is
advanced and damped, and each angle is advanced with its new velocity. -/
theorem update_free_is_euler_step (mp : Bool) (mx my a1 w1 l1 m1 a2 w2 l2 m2 : ℝ)
    (trail : List (TrailPoint ℝ)) (w h : Int) (t : ℝ)
    (hfree : ¬ (mp = true ∧
      Real.sqrt
        ((l1 * Real.sin a1 + l2 * Real.sin a2 - (windowToOpenGLCoordinates mx my w h).1) ^ 2
          + (-(l1 * Real.cos a1 + l2 * Real.cos a2)
            - (windowToOpenGLCoordinates mx my w h).2) ^ 2) < 0.1)) :
    let g : ℝ := 9.81
    let dt : ℝ := 0.016
    let damp : ℝ := 0.9999
    let D : ℝ := 2 * m1 + m2 - m2 * Real.cos (2 * a1 - 2 * a2)
    let acc1 : ℝ :=
      (-g * (2 * m1 + m2) * Real.sin a1 - m2 * g * Real.sin (a1 - 2 * a2)
        - 2 * Real.sin (a1 - a2) * m2 * (w2 ^ 2 * l2 + w1 ^ 2 * l1 * Real.cos (a1 - a2)))
        / (l1 * D)
    let acc2 : ℝ :=
      2 * Real.sin (a1 - a2)
        * (w1 ^ 2 * l1 * (m1 + m2) + g * (m1 + m2) * Real.cos a1
            + w2 ^ 2 * l2 * m2 * Real.cos (a1 - a2))
        / (l2 * D)
    let v1 : ℝ := (w1 + acc1 * dt) * damp
    let v2 : ℝ := (w2 + acc2 * dt) * damp
    ∃ s', update realLibm ⟨mp, mx, my, false, [⟨a1, w1, l1, m1⟩, ⟨a2, w2, l2, m2⟩], trail⟩ w h t
        = some s' ∧
      s'.pendulums = [⟨a1 + v1 * dt, v1, l1, m1⟩, ⟨a2 + v2 * dt, v2, l2, m2⟩] := by
  intro g dt damp D acc1 acc2 v1 v2
  have hd : (capture realLibm ⟨mp, mx, my, false, [⟨a1, w1, l1, m1⟩, ⟨a2, w2, l2, m2⟩], trail⟩
      w h).draggingLastPendulum = false := by
    rw [← Bool.not_eq_true, capture_dragging_two]
    simpa using hfree
  rw [update_of_free _ _ _ _ _ hd]
  refine ⟨_, rfl, ?_⟩
  have e1 : (-gravity * (2 * m1 + m2) * Real.sin a1 + -m2 * gravity * Real.sin (a1 - 2 * a2)
      + -2 * Real.sin (a1 - a2) * m2 * (w2 * w2 * l2 + w1 * w1 * l1 * Real.cos (a1 - a2)))
      / (l1 * (2 * m1 + m2 - m2 * Real.cos (2 * a1 - 2 * a2))) = acc1 := by
    simp only [acc1, D, g, gravity]
    ring
  have e2 : 2 * Real.sin (a1 - a2)
      * (w1 * w1 * l1 * (m1 + m2) + gravity * (m1 + m2) * Real.cos a1
          + w2 * w2 * l2 * m2 * Real.cos (a1 - a2))
      / (l2 * (2 * m1 + m2 - m2 * Real.cos (2 * a1 - 2 * a2))) = acc2 := by
    simp only [acc2, D, g, gravity]
    ring
  simp only [integrate, realLibm, e1, e2]
  rfl

/-- Witness for C1: the button is up, both links hang at rest. -/
theorem update_free_is_euler_step_witness :
    ¬ ((false : Bool) = true ∧
      Real.sqrt
        (((1 : ℝ) * Real.sin 0 + 1 * Real.sin 0
            - (windowToOpenGLCoordinates (0 : ℝ) 0 800 800).1) ^ 2
          + (-((1 : ℝ) * Real.cos 0 + 1 * Real.cos 0)
            - (windowToOpenGLCoordinates (0 : ℝ) 0 800 800).2) ^ 2) < 0.1) ∧
    (let g : ℝ := 9.81
     let dt : ℝ := 0.016
     let damp : ℝ := 0.9999
     let D : ℝ := 2 * 1 + 1 - 1 * Real.cos (2 * 0 - 2 * 0)
     let acc1 : ℝ :=
       (-g * (2 * 1 + 1) * Real.sin 0 - 1 * g * Real.sin (0 - 2 * 0)
         - 2 * Real.sin (0 - 0) * 1 * (0 ^ 2 * 1 + 0 ^ 2 * 1 * Real.cos (0 - 0)))
         / (1 * D)
     let acc2 : ℝ :=
       2 * Real.sin (0 - 0)
         * (0 ^ 2 * 1 * (1 + 1) + g * (1 + 1) * Real.cos 0
             + 0 ^ 2 * 1 * 1 * Real.cos (0 - 0))
         / (1 * D)
     let v1 : ℝ := (0 + acc1 * dt) * damp
     let v2 : ℝ := (0 + acc2 * dt) * damp
     ∃ s', update realLibm ⟨false, 0, 0, false, [⟨0, 0, 1, 1⟩, ⟨0, 0, 1, 1⟩], []⟩ 800 800 0
         = some s' ∧
       s'.pendulums = [⟨0 + v1 * dt, v1, 1, 1⟩, ⟨0 + v2 * dt, v2, 1, 1⟩]) :=
  ⟨fun hc => Bool.false_ne_true hc.1,
   update_free_is_euler_step false 0 0 0 0 1 1 0 0 1 1 [] 800 800 0
     (fun hc => Bool.false_ne_true hc.1)⟩

/-! ## The interaction state machine -/

section Lemmas

variable {F : Type} [LinearOrderedField F]

lemma integrate_two (M : Libm F) (p1 p2 : Pendulum F) :
    ∃ q1 q2, integrate M [p1, p2] = some [q1, q2] :=
  ⟨_, _, rfl⟩

lemma dragLast_two (M : Libm F) (s : State F) (p1 p2 : Pendulum F) (w h : Int)
    (hs : s.pendulums = [p1, p2]) :
    dragLast M s w h =
      some [p1, { p2 with
        angle := M.atan2 (windowToOpenGLCoordinates s.mouseX s.mouseY w h).1
          (-(windowToOpenGLCoordinates s.mouseX s.mouseY w h).2)
        angleSpeed := 0 }] := by
  unfold dragLast
  rw [hs]
  rfl

/-- On a two-link chain `update` always returns, and what it returns is the
state after the capture test with a new two-link chain and the trail
recomputed from that chain. -/
lemma update_two (M : Libm F) (s : State F) (p1 p2 : Pendulum F) (w h : Int) (t : F)
    (hs : s.pendulums = [p1, p2]) :
    ∃ q1 q2, update M s w h t =
      some { capture M s w h with
        pendulums := [q1, q2]
        trail := updateTrail M [q1, q2] s.trail t } := by
  cases hd : (capture M s w h).draggingLastPendulum
  · obtain ⟨q1, q2, hq⟩ := integrate_two M p1 p2
    refine ⟨q1, q2, ?_⟩
    rw [update_of_free M s w h t hd, hs, hq]
    rfl
  · rw [update_of_drag M s w h t hd, dragLast_two M s p1 p2 w h hs]
    exact ⟨_, _, rfl⟩

end Lemmas

/-- C2: one call of `update` leaves the controller Dragging exactly when it
was Dragging before, or the button was held and the pointer was strictly
within 0.1 of the outer endpoint of the chain as it stood before the call.
So a Free controller with the button held and the pointer that near is
Dragging after the tick, a Dragging controller stays Dragging, and the
button-held flag is never changed. -/
theorem update_dragging_iff (mp d : Bool) (mx my : ℝ) (p1 p2 : Pendulum ℝ)
    (trail : List (TrailPoint ℝ)) (w h : Int) (t : ℝ) :
    ∃ s', update realLibm ⟨mp, mx, my, d, [p1, p2], trail⟩ w h t = some s' ∧
      (s'.draggingLastPendulum = true ↔
        d = true ∨
          (mp = true ∧
            Real.sqrt
              ((p1.length * Real.sin p1.angle + p2.length * Real.sin p2.angle
                  - (windowToOpenGLCoordinates mx my w h).1) ^ 2
                + (-(p1.length * Real.cos p1.angle + p2.length * Real.cos p2.angle)
                  - (windowToOpenGLCoordinates mx my w h).2) ^ 2) < 0.1)) ∧
      s'.mousePressed = mp := by
  obtain ⟨q1, q2, hq⟩ :=
    update_two realLibm ⟨mp, mx, my, d, [p1, p2], trail⟩ p1 p2 w h t rfl
  refine ⟨_, hq, ?_, ?_⟩
  · exact capture_dragging_two mp d mx my p1 p2 trail w h
  · exact capture_mousePressed realLibm _ w h

/-- The capture test on a two-link chain, for any maths library, with the tip
of the chain written out. -/
lemma capture_dragging_pair {F : Type} [LinearOrderedField F] (M : Libm F) (mp d : Bool)
    (mx my : F) (p1 p2 : Pendulum F) (trail : List (TrailPoint F)) (w h : Int) :
    (capture M ⟨mp, mx, my, d, [p1, p2], trail⟩ w h).draggingLastPendulum = true ↔
      d = true ∨
        (mp = true ∧
          M.hypot
            (p1.length * M.sin p1.angle + p2.length * M.sin p2.angle
              - (windowToOpenGLCoordinates mx my w h).1)
            (-(p1.length * M.cos p1.angle + p2.length * M.cos p2.angle)
              - (windowToOpenGLCoordinates mx my w h).2) < 0.1) := by
  rw [capture_dragging]
  simp only [lastBob_pair]
  have e1 : (0 + p1.length * M.sin p1.angle + p2.length * M.sin p2.angle
      - (windowToOpenGLCoordinates mx my w h).1) =
      (p1.length * M.sin p1.angle + p2.length * M.sin p2.angle
      - (windowToOpenGLCoordinates mx my w h).1) := by ring
  have e2 : (0 - p1.length * M.cos p1.angle - p2.length * M.cos p2.angle
      - (windowToOpenGLCoordinates mx my w h).2) =
      (-(p1.length * M.cos p1.angle + p2.length * M.cos p2.angle)
      - (windowToOpenGLCoordinates mx my w h).2) := by ring
  rw [e1, e2]

/-- C3: a tick that runs in the Dragging state, whether the controller was
Dragging on entry or captured the pointer in this tick, sets the outer
link's angle to `atan2(simX, -simY)` and its angular velocity to 0, and
leaves the inner link as it was.  This holds for whatever functions the
maths library provides, so also for whatever value its `atan2` takes where
both arguments are zero. -/
theorem update_drag_overrides_outer (M : Libm ℝ) (mp d : Bool) (mx my : ℝ)
    (p1 p2 : Pendulum ℝ) (trail : List (TrailPoint ℝ)) (w h : Int) (t : ℝ)
    (hdrag : d = true ∨
      (mp = true ∧
        M.hypot
          (p1.length * M.sin p1.angle + p2.length * M.sin p2.angle
            - (windowToOpenGLCoordinates mx my w h).1)
          (-(p1.length * M.cos p1.angle + p2.length * M.cos p2.angle)
            - (windowToOpenGLCoordinates mx my w h).2) < 0.1)) :
    ∃ s', update M ⟨mp, mx, my, d, [p1, p2], trail⟩ w h t = some s' ∧
      s'.pendulums =
        [p1,
         ⟨M.atan2 (windowToOpenGLCoordinates mx my w h).1
            (-(windowToOpenGLCoordinates mx my w h).2),
          0, p2.length, p2.mass⟩] := by
  have hd := (capture_dragging_pair M mp d mx my p1 p2 trail w h).2 hdrag
  rw [update_of_drag _ _ _ _ _ hd, dragLast_two M _ p1 p2 w h rfl]
  exact ⟨_, rfl, rfl⟩

/-- Witness for C3: the controller is Dragging on entry and the cursor is at
the centre (400, 400) of the 800 by 800 window, which is the origin of the
simulation plane; with the real-number reading of the library the outer link
is set to the angle π, as in the program. -/
theorem update_drag_overrides_outer_witness :
    ∃ s', update realLibm ⟨true, 400, 400, true, [⟨1, 2, 1, 1⟩, ⟨3, 4, 1, 1⟩], []⟩ 800 800 0
        = some s' ∧
      s'.pendulums = [⟨1, 2, 1, 1⟩, ⟨Real.pi, 0, 1, 1⟩] := by
  obtain ⟨s', hs', hp⟩ :=
    update_drag_overrides_outer realLibm true true 400 400 ⟨1, 2, 1, 1⟩ ⟨3, 4, 1, 1⟩ []
      800 800 0 (Or.inl rfl)
  refine ⟨s', hs', ?_⟩
  rw [hp]
  have hx : (windowToOpenGLCoordinates (400 : ℝ) 400 800 800).1 = 0 := by
    norm_num [windowToOpenGLCoordinates]
  have hy : (windowToOpenGLCoordinates (400 : ℝ) 400 800 800).2 = 0 := by
    norm_num [windowToOpenGLCoordinates]
  rw [hx, hy]
  simp [realLibm]

/-- C7: a left-button release leaves the controller Free with the button
flag down, a left-button press leaves it Dragging with the button flag up,
any other button or action leaves both flags as they were, and in every case
the pointer position, the chain and the trail are untouched. -/
theorem mouseButtonCallback_spec (s : State ℝ) (button action : Int) :
    ((mouseButtonCallback s GLFW_MOUSE_BUTTON_LEFT GLFW_RELEASE).draggingLastPendulum = false ∧
      (mouseButtonCallback s GLFW_MOUSE_BUTTON_LEFT GLFW_RELEASE).mousePressed = false) ∧
    ((mouseButtonCallback s GLFW_MOUSE_BUTTON_LEFT GLFW_PRESS).draggingLastPendulum = true ∧
      (mouseButtonCallback s GLFW_MOUSE_BUTTON_LEFT GLFW_PRESS).mousePressed = true) ∧
    (button ≠ GLFW_MOUSE_BUTTON_LEFT ∨ (action ≠ GLFW_PRESS ∧ action ≠ GLFW_RELEASE) →
      (mouseButtonCallback s button action).draggingLastPendulum = s.draggingLastPendulum ∧
      (mouseButtonCallback s button action).mousePressed = s.mousePressed) ∧
    (mouseButtonCallback s button action).pendulums = s.pendulums ∧
    (mouseButtonCallback s button action).trail = s.trail ∧
    (mouseButtonCallback s button action).mouseX = s.mouseX ∧
    (mouseButtonCallback s button action).mouseY = s.mouseY := by
  refine ⟨⟨rfl, rfl⟩, ⟨rfl, rfl⟩, ?_, ?_, ?_, ?_, ?_⟩
  · rintro (hb | ⟨hp, hr⟩)
    · simp [mouseButtonCallback, hb]
    · unfold mouseButtonCallback
      split_ifs <;> exact ⟨rfl, rfl⟩
  all_goals
    unfold mouseButtonCallback
    split_ifs <;> rfl

/-- Witness for C7: the right button (GLFW code 1) pressed while the
controller is Dragging with the button flag up changes neither flag. -/
theorem mouseButtonCallback_spec_witness :
    (mouseButtonCallback (⟨true, 0, 0, true, [], []⟩ : State ℝ) 1 1).draggingLastPendulum = true ∧
    (mouseButtonCallback (⟨true, 0, 0, true, [], []⟩ : State ℝ) 1 1).mousePressed = true :=
  (mouseButtonCallback_spec ⟨true, 0, 0, true, [], []⟩ 1 1).2.2.1 (Or.inl (by decide))

/-! ## The trail -/

section Lemmas

variable {F : Type} [LinearOrderedField F]

lemma expire_suffix (t : F) (l : List (TrailPoint F)) : expire t l <:+ l := by
  induction l with
  | nil => exact List.suffix_refl _
  | cons front rest ih =>
    unfold expire
    split_ifs
    · exact ih.trans (List.suffix_cons front rest)
    · exact List.suffix_refl _

/-- The loop stops at a front that is not older than `trailDuration`. -/
lemma expire_head_fresh (t : F) (l : List (TrailPoint F)) :
    ∀ p ∈ (expire t l).head?, t - p.timeStamp ≤ trailDuration := by
  induction l with
  | nil => simp [expire]
  | cons front rest ih =>
    unfold expire
    split_ifs with hold
    · exact ih
    · intro p hp
      simp only [List.head?_cons, Option.mem_def, Option.some.injEq] at hp
      subst hp
      exact not_lt.mp hold

/-- A sample at the back that is not too old stops the loop at the latest
there: the loop then acts on the part in front of it. -/
lemma expire_append_fresh (t : F) (l : List (TrailPoint F)) (a : TrailPoint F)
    (ha : t - a.timeStamp ≤ trailDuration) :
    expire t (l ++ [a]) = expire t l ++ [a] := by
  induction l with
  | nil => simp [expire, not_lt.mpr ha]
  | cons front rest ih =>
    simp only [List.cons_append, expire]
    split_ifs
    · exact ih
    · rfl

/-- On a trail with non-decreasing timestamps nothing too old is left. -/
lemma expire_all_fresh (t : F) (l : List (TrailPoint F))
    (hs : (l.map TrailPoint.timeStamp).Sorted (· ≤ ·)) :
    ∀ p ∈ expire t l, t - p.timeStamp ≤ trailDuration := by
  induction l with
  | nil => simp [expire]
  | cons front rest ih =>
    rw [List.map_cons, List.sorted_cons] at hs
    unfold expire
    split_ifs with hold
    · exact ih hs.2
    · intro p hp
      rcases List.mem_cons.mp hp with rfl | hp
      · exact not_lt.mp hold
      · have hle : front.timeStamp ≤ p.timeStamp :=
          hs.1 _ (List.mem_map_of_mem TrailPoint.timeStamp hp)
        have hf : t - front.timeStamp ≤ trailDuration := not_lt.mp hold
        linarith

lemma refreshAlpha_timeStamps (t : F) (l : List (TrailPoint F)) :
    (refreshAlpha t l).map TrailPoint.timeStamp = l.map TrailPoint.timeStamp := by
  simp [refreshAlpha, Function.comp_def]

lemma mem_refreshAlpha (t : F) (l : List (TrailPoint F)) (q : TrailPoint F) :
    q ∈ refreshAlpha t l ↔
      ∃ p ∈ l, q = { p with alpha := 1 - (t - p.timeStamp) / trailDuration } := by
  simp [refreshAlpha, eq_comm]

/-- In a trail with non-decreasing timestamps every sample is at most as
recent as the newest one. -/
lemma le_of_sorted_of_getLast (t : F) (l : List (TrailPoint F))
    (hs : (l.map TrailPoint.timeStamp).Sorted (· ≤ ·))
    (hnew : ∀ p ∈ l.getLast?, p.timeStamp ≤ t) :
    ∀ p ∈ l, p.timeStamp ≤ t := by
  rcases List.eq_nil_or_concat l with rfl | ⟨front, a, rfl⟩
  · simp
  · rw [List.concat_eq_append] at hs hnew ⊢
    have ha : a.timeStamp ≤ t := hnew a (by simp)
    rw [List.map_append, List.map_cons, List.map_nil] at hs
    have hpw := (List.pairwise_append.mp hs).2.2
    intro p hp
    rcases List.mem_append.mp hp with hp | hp
    · exact (hpw _ (List.mem_map_of_mem TrailPoint.timeStamp hp) _
        (List.mem_singleton_self _)).trans ha
    · rw [List.mem_singleton.mp hp]
      exact ha

/-- Appending a sample stamped `t` keeps the timestamps non-decreasing when
no sample is more recent than `t`. -/
lemma sorted_append_new (t : F) (l : List (TrailPoint F)) (a : TrailPoint F)
    (hs : (l.map TrailPoint.timeStamp).Sorted (· ≤ ·))
    (hle : ∀ p ∈ l, p.timeStamp ≤ t) (ha : a.timeStamp = t) :
    ((l ++ [a]).map TrailPoint.timeStamp).Sorted (· ≤ ·) := by
  rw [List.map_append, List.map_cons, List.map_nil]
  refine List.pairwise_append.mpr ⟨hs, List.pairwise_singleton _ _, ?_⟩
  intro x hx y hy
  obtain ⟨p, hp, rfl⟩ := List.mem_map.mp hx
  rw [List.mem_singleton.mp hy, ha]
  exact hle p hp

end Lemmas

/-- C4: when the trail's timestamps are non-decreasing from oldest to newest
and `currentTime` is at least the newest of them, every sample that
`update` retains has age at most 20, and the retained timestamps are again
non-decreasing. -/
theorem update_trail_expiry (mp d : Bool) (mx my : ℝ) (p1 p2 : Pendulum ℝ)
    (trail : List (TrailPoint ℝ)) (w h : Int) (t : ℝ)
    (hsorted : (trail.map TrailPoint.timeStamp).Sorted (· ≤ ·))
    (hnew : ∀ p ∈ trail.getLast?, p.timeStamp ≤ t) :
    ∃ s', update realLibm ⟨mp, mx, my, d, [p1, p2], trail⟩ w h t = some s' ∧
      (∀ p ∈ s'.trail, t - p.timeStamp ≤ 20) ∧
      (s'.trail.map TrailPoint.timeStamp).Sorted (· ≤ ·) := by
  obtain ⟨q1, q2, hq⟩ :=
    update_two realLibm ⟨mp, mx, my, d, [p1, p2], trail⟩ p1 p2 w h t rfl
  have hle := le_of_sorted_of_getLast t trail hsorted hnew
  have hs := sorted_append_new t trail
    ⟨(lastBob realLibm [q1, q2]).1, (lastBob realLibm [q1, q2]).2, 1, t⟩ hsorted hle rfl
  refine ⟨_, hq, ?_, ?_⟩
  · intro p hp
    obtain ⟨p0, hp0, rfl⟩ := (mem_refreshAlpha t _ p).mp hp
    exact expire_all_fresh t _ hs p0 hp0
  · show ((refreshAlpha t _).map TrailPoint.timeStamp).Sorted (· ≤ ·)
    rw [refreshAlpha_timeStamps]
    exact List.Pairwise.sublist ((expire_suffix t _).sublist.map _) hs

/-- Witness for C4: a trail stamped 0 and 25, ticked at time 30. -/
theorem update_trail_expiry_witness :
    (([⟨0, 0, 1, 0⟩, ⟨0, 0, 1, 25⟩] : List (TrailPoint ℝ)).map TrailPoint.timeStamp).Sorted
        (· ≤ ·) ∧
    (∀ p ∈ ([⟨0, 0, 1, 0⟩, ⟨0, 0, 1, 25⟩] : List (TrailPoint ℝ)).getLast?,
        p.timeStamp ≤ 30) ∧
    ∃ s', update realLibm
        ⟨false, 0, 0, false, [⟨0, 0, 1, 1⟩, ⟨0, 0, 1, 1⟩], [⟨0, 0, 1, 0⟩, ⟨0, 0, 1, 25⟩]⟩
        800 800 30 = some s' ∧
      (∀ p ∈ s'.trail, (30 : ℝ) - p.timeStamp ≤ 20) ∧
      (s'.trail.map TrailPoint.timeStamp).Sorted (· ≤ ·) :=
  have hs : (([⟨0, 0, 1, 0⟩, ⟨0, 0, 1, 25⟩] : List (TrailPoint ℝ)).map
      TrailPoint.timeStamp).Sorted (· ≤ ·) := by
    simp
  have hn : ∀ p ∈ ([⟨0, 0, 1, 0⟩, ⟨0, 0, 1, 25⟩] : List (TrailPoint ℝ)).getLast?,
      p.timeStamp ≤ 30 := by
    intro p hp
    simp only [List.getLast?_cons_cons, List.getLast?_singleton, Option.mem_def,
      Option.some.injEq] at hp
    subst hp
    norm_num
  ⟨hs, hn,
   update_trail_expiry false false 0 0 ⟨0, 0, 1, 1⟩ ⟨0, 0, 1, 1⟩
     [⟨0, 0, 1, 0⟩, ⟨0, 0, 1, 25⟩] 800 800 30 hs hn⟩

/-- C5: whatever the prior trail, after `update` the trail is non-empty and
its newest sample is stamped `currentTime`, has alpha 1, and lies at the
outer endpoint of the chain as `update` left it. -/
theorem update_appends_fresh_sample (mp d : Bool) (mx my : ℝ) (p1 p2 : Pendulum ℝ)
    (trail : List (TrailPoint ℝ)) (w h : Int) (t : ℝ) :
    ∃ s' q1 q2, update realLibm ⟨mp, mx, my, d, [p1, p2], trail⟩ w h t = some s' ∧
      s'.pendulums = [q1, q2] ∧
      s'.trail ≠ [] ∧
      s'.trail.getLast? =
        some ⟨q1.length * Real.sin q1.angle + q2.length * Real.sin q2.angle,
              -(q1.length * Real.cos q1.angle + q2.length * Real.cos q2.angle), 1, t⟩ := by
  obtain ⟨q1, q2, hq⟩ :=
    update_two realLibm ⟨mp, mx, my, d, [p1, p2], trail⟩ p1 p2 w h t rfl
  have hfresh : t - t ≤ (trailDuration : ℝ) := by
    simp [trailDuration]
  have htrail : updateTrail realLibm [q1, q2] trail t =
      refreshAlpha t (expire t trail) ++
        [⟨q1.length * Real.sin q1.angle + q2.length * Real.sin q2.angle,
          -(q1.length * Real.cos q1.angle + q2.length * Real.cos q2.angle), 1, t⟩] := by
    unfold updateTrail
    simp only [lastBob_pair, realLibm]
    rw [expire_append_fresh t trail _ hfresh]
    simp only [refreshAlpha, List.map_append, List.map_cons, List.map_nil]
    congr 2
    simp only [TrailPoint.mk.injEq, and_true]
    refine ⟨by ring, by ring, by simp⟩
  refine ⟨_, q1, q2, hq, rfl, ?_, ?_⟩
  · show updateTrail realLibm [q1, q2] trail t ≠ []
    rw [htrail]
    simp
  · show (updateTrail realLibm [q1, q2] trail t).getLast? = _
    rw [htrail]
    simp

/-- C10: when the trail's timestamps are non-decreasing from oldest to newest
and `currentTime` is at least the newest of them, every sample that
`update` retains has its alpha in the closed interval from 0 to 1. -/
theorem update_alpha_range (mp d : Bool) (mx my : ℝ) (p1 p2 : Pendulum ℝ)
    (trail : List (TrailPoint ℝ)) (w h : Int) (t : ℝ)
    (hsorted : (trail.map TrailPoint.timeStamp).Sorted (· ≤ ·))
    (hnew : ∀ p ∈ trail.getLast?, p.timeStamp ≤ t) :
    ∃ s', update realLibm ⟨mp, mx, my, d, [p1, p2], trail⟩ w h t = some s' ∧
      ∀ p ∈ s'.trail, 0 ≤ p.alpha ∧ p.alpha ≤ 1 := by
  obtain ⟨q1, q2, hq⟩ :=
    update_two realLibm ⟨mp, mx, my, d, [p1, p2], trail⟩ p1 p2 w h t rfl
  have hle := le_of_sorted_of_getLast t trail hsorted hnew
  have hs := sorted_append_new t trail
    ⟨(lastBob realLibm [q1, q2]).1, (lastBob realLibm [q1, q2]).2, 1, t⟩ hsorted hle rfl
  refine ⟨_, hq, ?_⟩
  intro p hp
  obtain ⟨p0, hp0, rfl⟩ := (mem_refreshAlpha t _ p).mp hp
  have hage : t - p0.timeStamp ≤ 20 := expire_all_fresh t _ hs p0 hp0
  have hpast : p0.timeStamp ≤ t := by
    rcases List.mem_append.mp ((expire_suffix t _).subset hp0) with hm | hm
    · exact hle p0 hm
    · rw [List.mem_singleton.mp hm]
  show 0 ≤ 1 - (t - p0.timeStamp) / trailDuration ∧
    1 - (t - p0.timeStamp) / trailDuration ≤ 1
  have h20 : (trailDuration : ℝ) = 20 := rfl
  rw [h20]
  constructor
  · have : (t - p0.timeStamp) / 20 ≤ 1 := by
      rw [div_le_one (by norm_num)]
      exact hage
    linarith
  · have : 0 ≤ (t - p0.timeStamp) / 20 := div_nonneg (by linarith) (by norm_num)
    linarith

/-- Witness for C10: a trail stamped 0 and 25, ticked at time 30. -/
theorem update_alpha_range_witness :
    ∃ s', update realLibm
        ⟨false, 0, 0, false, [⟨0, 0, 1, 1⟩, ⟨0, 0, 1, 1⟩], [⟨0, 0, 1, 0⟩, ⟨0, 0, 1, 25⟩]⟩
        800 800 30 = some s' ∧
      ∀ p ∈ s'.trail, 0 ≤ p.alpha ∧ p.alpha ≤ 1 :=
  update_alpha_range false false 0 0 ⟨0, 0, 1, 1⟩ ⟨0, 0, 1, 1⟩
    [⟨0, 0, 1, 0⟩, ⟨0, 0, 1, 25⟩] 800 800 30 (by simp)
    (by
      intro p hp
      simp only [List.getLast?_cons_cons, List.getLast?_singleton, Option.mem_def,
        Option.some.injEq] at hp
      subst hp
      norm_num)

/-! ## Reachable states of the host loop -/

lemma mouseButtonCallback_flags_agree {F : Type} (s : State F) (button action : Int)
    (hflags : s.mousePressed = s.draggingLastPendulum) :
    (mouseButtonCallback s button action).mousePressed =
      (mouseButtonCallback s button action).draggingLastPendulum := by
  unfold mouseButtonCallback
  split_ifs <;> first | rfl | exact hflags

lemma mouseButtonCallback_pendulums {F : Type} (s : State F) (button action : Int) :
    (mouseButtonCallback s button action).pendulums = s.pendulums := by
  unfold mouseButtonCallback
  split_ifs <;> rfl

lemma mouseButtonCallback_trail {F : Type} (s : State F) (button action : Int) :
    (mouseButtonCallback s button action).trail = s.trail := by
  unfold mouseButtonCallback
  split_ifs <;> rfl

section Lemmas

variable {F : Type} [LinearOrderedField F]

/-- While the two flags agree the capture test does nothing. -/
lemma capture_of_flags_agree (M : Libm F) (s : State F) (w h : Int)
    (hflags : s.mousePressed = s.draggingLastPendulum) : capture M s w h = s := by
  unfold capture
  rw [hflags]
  simp

/-- One host event keeps the two flags equal and the chain two links long,
and on such a state it always returns. -/
lemma step_keeps_flags (M : Libm F) (s : State F) (e : HostEvent F)
    (hflags : s.mousePressed = s.draggingLastPendulum)
    (hlinks : ∃ p1 p2, s.pendulums = [p1, p2]) :
    ∃ s', step M s e = some s' ∧ s'.mousePressed = s'.draggingLastPendulum ∧
      ∃ q1 q2, s'.pendulums = [q1, q2] := by
  obtain ⟨p1, p2, hp⟩ := hlinks
  cases e with
  | mouseButton button action =>
    refine ⟨_, rfl, mouseButtonCallback_flags_agree s button action hflags, p1, p2, ?_⟩
    rw [mouseButtonCallback_pendulums, hp]
  | cursorPosition xpos ypos => exact ⟨_, rfl, hflags, p1, p2, hp⟩
  | frame currentTime =>
    obtain ⟨q1, q2, hq⟩ := update_two M s p1 p2 800 800 currentTime hp
    refine ⟨_, hq, ?_, q1, q2, rfl⟩
    show (capture M s 800 800).mousePressed = (capture M s 800 800).draggingLastPendulum
    rw [capture_of_flags_agree M s 800 800 hflags]
    exact hflags

lemma run_keeps_flags (M : Libm F) (es : List (HostEvent F)) :
    ∀ s : State F, s.mousePressed = s.draggingLastPendulum →
      (∃ p1 p2, s.pendulums = [p1, p2]) →
      ∃ s', run M s es = some s' ∧ s'.mousePressed = s'.draggingLastPendulum := by
  induction es with
  | nil => exact fun s hflags _ => ⟨s, rfl, hflags⟩
  | cons e es ih =>
    intro s hflags hlinks
    obtain ⟨s1, hs1, hflags1, hlinks1⟩ := step_keeps_flags M s e hflags hlinks
    obtain ⟨s', hs', hflags'⟩ := ih s1 hflags1 hlinks1
    refine ⟨s', ?_, hflags'⟩
    simp only [run, hs1]
    exact hs'

end Lemmas

/-- C6: after every finite sequence of host events from the startup state
the program is in a state where the button flag and the drag flag are equal.
So no tick begins with the button held and the controller Free, and the
proximity test of `update` is never what moves the controller to Dragging. -/
theorem held_and_free_unreachable (es : List (HostEvent ℝ)) :
    ∃ s, run realLibm initialState es = some s ∧
      s.mousePressed = s.draggingLastPendulum ∧
      ¬ (s.mousePressed = true ∧ s.draggingLastPendulum = false) := by
  obtain ⟨s, hs, hflags⟩ :=
    run_keeps_flags realLibm es initialState rfl ⟨_, _, rfl⟩
  refine ⟨s, hs, hflags, ?_⟩
  rintro ⟨hp, hd⟩
  rw [hflags, hd] at hp
  exact Bool.false_ne_true hp

/-! ## The first tick of the startup chain -/

/-- One physics tick of a chain of two unit links at rest at the same angle
`a`: the outer link feels no acceleration. -/
lemma update_equal_angles (a mx my : ℝ) (trail : List (TrailPoint ℝ)) (w h : Int) (t : ℝ) :
    ∃ s', update realLibm
        ⟨false, mx, my, false, [Pendulum.init a 1 1, Pendulum.init a 1 1], trail⟩ w h t
          = some s' ∧
      s'.pendulums =
        [⟨a + (0 + -(9.81 * Real.sin a) * 0.016) * 0.9999 * 0.016,
          (0 + -(9.81 * Real.sin a) * 0.016) * 0.9999, 1, 1⟩,
         ⟨a, 0, 1, 1⟩] := by
  have hd : (capture realLibm
      ⟨false, mx, my, false, [Pendulum.init a 1 1, Pendulum.init a 1 1], trail⟩
      w h).draggingLastPendulum = false := by
    rw [capture_of_flags_agree _ _ _ _ rfl]
  rw [update_of_free _ _ _ _ _ hd]
  refine ⟨_, rfl, ?_⟩
  have e1 : (-gravity * (2 * 1 + 1) * Real.sin a + -1 * gravity * Real.sin (a - 2 * a)
      + -2 * Real.sin (a - a) * 1 * (0 * 0 * 1 + 0 * 0 * 1 * Real.cos (a - a)))
      / (1 * (2 * 1 + 1 - 1 * Real.cos (2 * a - 2 * a))) = -(9.81 * Real.sin a) := by
    have h1 : a - 2 * a = -a := by ring
    rw [h1, Real.sin_neg, sub_self, sub_self, Real.sin_zero, Real.cos_zero]
    simp only [gravity]
    ring
  have e2 : 2 * Real.sin (a - a)
      * (0 * 0 * 1 * (1 + 1) + gravity * (1 + 1) * Real.cos a
          + 0 * 0 * 1 * 1 * Real.cos (a - a))
      / (1 * (2 * 1 + 1 - 1 * Real.cos (2 * a - 2 * a))) = 0 := by
    rw [sub_self, Real.sin_zero]
    simp
  simp only [integrate, realLibm, Pendulum.init, e1, e2]
  simp only [deltaTime, damping, zero_mul, add_zero]

/-- C8, counterexample: after the first tick of the chain started with both
angles π/4, at rest, with unit lengths and masses, the outer link still has
angle π/4 and angular velocity 0, so not all four quantities have changed. -/
theorem first_tick_outer_link_unchanged :
    ∃ s' q1 q2,
      update realLibm
        ⟨false, 0, 0, false,
          [Pendulum.init (Real.pi / 4) 1 1, Pendulum.init (Real.pi / 4) 1 1], []⟩
        800 800 0.016 = some s' ∧
      s'.pendulums = [q1, q2] ∧
      q2.angle = Real.pi / 4 ∧ q2.angleSpeed = 0 ∧
      ¬ (q1.angle ≠ Real.pi / 4 ∧ q1.angleSpeed ≠ 0 ∧
          q2.angle ≠ Real.pi / 4 ∧ q2.angleSpeed ≠ 0) := by
  obtain ⟨s', hs', hp⟩ := update_equal_angles (Real.pi / 4) 0 0 [] 800 800 0.016
  exact ⟨s', _, _, hs', hp, rfl, rfl, fun hall => hall.2.2.1 rfl⟩

/-- C8, amended: start the chain with both links at the same angle `a`
strictly between 0 and π (π/4 in the scenario), at rest, with unit lengths
and masses.  After one tick with no drag the four values are exactly those
of the stated equations and Euler update; the inner angle and inner angular
velocity have changed, and the outer angle and outer angular velocity have
not, because the outer acceleration is 0 when the two angles are equal. -/
theorem first_tick_equal_angles (a mx my : ℝ) (trail : List (TrailPoint ℝ)) (w h : Int)
    (t : ℝ) (h0 : 0 < a) (hpi : a < Real.pi) :
    let g : ℝ := 9.81
    let dt : ℝ := 0.016
    let damp : ℝ := 0.9999
    let D : ℝ := 2 * 1 + 1 - 1 * Real.cos (2 * a - 2 * a)
    let acc1 : ℝ :=
      (-g * (2 * 1 + 1) * Real.sin a - 1 * g * Real.sin (a - 2 * a)
        - 2 * Real.sin (a - a) * 1 * (0 ^ 2 * 1 + 0 ^ 2 * 1 * Real.cos (a - a)))
        / (1 * D)
    let acc2 : ℝ :=
      2 * Real.sin (a - a)
        * (0 ^ 2 * 1 * (1 + 1) + g * (1 + 1) * Real.cos a
            + 0 ^ 2 * 1 * 1 * Real.cos (a - a))
        / (1 * D)
    let v1 : ℝ := (0 + acc1 * dt) * damp
    let v2 : ℝ := (0 + acc2 * dt) * damp
    ∃ s', update realLibm
        ⟨false, mx, my, false, [Pendulum.init a 1 1, Pendulum.init a 1 1], trail⟩ w h t
          = some s' ∧
      s'.pendulums = [⟨a + v1 * dt, v1, 1, 1⟩, ⟨a + v2 * dt, v2, 1, 1⟩] ∧
      v1 ≠ 0 ∧ a + v1 * dt ≠ a ∧ v2 = 0 ∧ a + v2 * dt = a := by
  intro g dt damp D acc1 acc2 v1 v2
  have hsin : 0 < Real.sin a := Real.sin_pos_of_pos_of_lt_pi h0 hpi
  have hacc1 : acc1 = -(9.81 * Real.sin a) := by
    have h1 : a - 2 * a = -a := by ring
    simp only [acc1, D, g]
    rw [h1, Real.sin_neg, sub_self, sub_self, Real.sin_zero, Real.cos_zero]
    ring
  have hacc2 : acc2 = 0 := by
    simp only [acc2]
    rw [sub_self, Real.sin_zero]
    simp
  have hv1 : v1 = (0 + -(9.81 * Real.sin a) * 0.016) * 0.9999 := by
    simp only [v1, hacc1, dt, damp]
  have hv2 : v2 = 0 := by
    simp only [v2, hacc2, zero_mul, add_zero]
  have hneg : v1 < 0 := by
    rw [hv1]
    nlinarith
  obtain ⟨s', hs', hp⟩ := update_equal_angles a mx my trail w h t
  refine ⟨s', hs', ?_, ne_of_lt hneg, ?_, hv2, ?_⟩
  · rw [hp, hv1, hv2]
    simp only [dt, zero_mul, add_zero]
  · have : v1 * dt < 0 := mul_neg_of_neg_of_pos hneg (by norm_num [dt])
    linarith
  · rw [hv2]
    simp

/-- Witness for C8: the state in which `main` enters its loop, whose chain
starts at the program's constant `PI / 4`, ticked at time 0.016. -/
theorem first_tick_equal_angles_witness :
    0 < (PI : ℝ) / 4 ∧ (PI : ℝ) / 4 < Real.pi ∧
    (let g : ℝ := 9.81
     let dt : ℝ := 0.016
     let damp : ℝ := 0.9999
     let D : ℝ := 2 * 1 + 1 - 1 * Real.cos (2 * (PI / 4) - 2 * (PI / 4))
     let acc1 : ℝ :=
       (-g * (2 * 1 + 1) * Real.sin (PI / 4) - 1 * g * Real.sin (PI / 4 - 2 * (PI / 4))
         - 2 * Real.sin (PI / 4 - PI / 4) * 1
           * (0 ^ 2 * 1 + 0 ^ 2 * 1 * Real.cos (PI / 4 - PI / 4)))
         / (1 * D)
     let acc2 : ℝ :=
       2 * Real.sin (PI / 4 - PI / 4)
         * (0 ^ 2 * 1 * (1 + 1) + g * (1 + 1) * Real.cos (PI / 4)
             + 0 ^ 2 * 1 * 1 * Real.cos (PI / 4 - PI / 4))
         / (1 * D)
     let v1 : ℝ := (0 + acc1 * dt) * damp
     let v2 : ℝ := (0 + acc2 * dt) * damp
     ∃ s', update realLibm initialState 800 800 0.016 = some s' ∧
       s'.pendulums = [⟨PI / 4 + v1 * dt, v1, 1, 1⟩, ⟨PI / 4 + v2 * dt, v2, 1, 1⟩] ∧
       v1 ≠ 0 ∧ PI / 4 + v1 * dt ≠ PI / 4 ∧ v2 = 0 ∧ PI / 4 + v2 * dt = PI / 4) :=
  have h0 : 0 < (PI : ℝ) / 4 := by
    unfold PI
    norm_num
  have hpi : (PI : ℝ) / 4 < Real.pi := by
    have h3 := Real.pi_gt_three
    have h1 : (PI : ℝ) / 4 < 3 := by
      unfold PI
      norm_num
    linarith
  ⟨h0, hpi, first_tick_equal_angles (PI / 4) 0 0 [] 800 800 0.016 h0 hpi⟩

/-! ## The size of the trail over a run -/

section Lemmas

variable {F : Type} [LinearOrderedField F]

lemma updateTrail_timeStamps_suffix (M : Libm F) (ps : List (Pendulum F))
    (trail : List (TrailPoint F)) (t : F) :
    (updateTrail M ps trail t).map TrailPoint.timeStamp
      <:+ trail.map TrailPoint.timeStamp ++ [t] := by
  unfold updateTrail
  rw [refreshAlpha_timeStamps]
  obtain ⟨front, hfront⟩ := expire_suffix t (trail ++ [⟨(lastBob M ps).1, (lastBob M ps).2, 1, t⟩])
  refine ⟨front.map TrailPoint.timeStamp, ?_⟩
  rw [← List.map_append, hfront]
  simp

lemma updateTrail_head_fresh (M : Libm F) (ps : List (Pendulum F))
    (trail : List (TrailPoint F)) (t : F) :
    ∀ p ∈ (updateTrail M ps trail t).head?, t - p.timeStamp ≤ trailDuration := by
  intro p hp
  unfold updateTrail refreshAlpha at hp
  rw [List.head?_map] at hp
  obtain ⟨p0, hp0, rfl⟩ := Option.map_eq_some'.mp hp
  exact expire_head_fresh t _ p0 hp0

/-- The trail across a run on a two-link chain: the run returns, the
timestamps left are a suffix of the old ones followed by the frame times,
without a frame the trail is as before, and the oldest sample left is at
most `trailDuration` older than the last frame. -/
lemma run_trail (M : Libm F) (es : List (HostEvent F)) :
    ∀ s : State F, (∃ p1 p2, s.pendulums = [p1, p2]) →
      ∃ s', run M s es = some s' ∧
        (s'.trail.map TrailPoint.timeStamp
          <:+ s.trail.map TrailPoint.timeStamp ++ frameTimes es) ∧
        (frameTimes es = [] → s'.trail = s.trail) ∧
        (∀ t ∈ (frameTimes es).getLast?, ∀ p ∈ s'.trail.head?,
          t - p.timeStamp ≤ trailDuration) := by
  induction es with
  | nil =>
    intro s _
    exact ⟨s, rfl, by simp [frameTimes], fun _ => rfl, by simp [frameTimes]⟩
  | cons e es ih =>
    intro s hlinks
    obtain ⟨p1, p2, hp⟩ := hlinks
    cases e with
    | mouseButton button action =>
      obtain ⟨s', hrun, hsuf, hsame, hhead⟩ :=
        ih (mouseButtonCallback s button action)
          ⟨p1, p2, by rw [mouseButtonCallback_pendulums, hp]⟩
      rw [mouseButtonCallback_trail] at hsuf hsame
      exact ⟨s', by simpa [run, step] using hrun, hsuf, hsame, hhead⟩
    | cursorPosition xpos ypos =>
      obtain ⟨s', hrun, hsuf, hsame, hhead⟩ :=
        ih (cursorPositionCallback s xpos ypos) ⟨p1, p2, hp⟩
      exact ⟨s', by simpa [run, step] using hrun, hsuf, hsame, hhead⟩
    | frame t =>
      obtain ⟨q1, q2, hq⟩ := update_two M s p1 p2 800 800 t hp
      obtain ⟨s', hrun, hsuf, hsame, hhead⟩ :=
        ih { capture M s 800 800 with
              pendulums := [q1, q2]
              trail := updateTrail M [q1, q2] s.trail t } ⟨q1, q2, rfl⟩
      refine ⟨s', by simpa [run, step, hq] using hrun, ?_, ?_, ?_⟩
      · obtain ⟨front, hfront⟩ := updateTrail_timeStamps_suffix M [q1, q2] s.trail t
        refine hsuf.trans ⟨front, ?_⟩
        show front ++ ((updateTrail M [q1, q2] s.trail t).map TrailPoint.timeStamp
            ++ frameTimes es) = s.trail.map TrailPoint.timeStamp ++ (t :: frameTimes es)
        rw [← List.append_assoc, hfront]
        simp
      · intro hnil
        simp [frameTimes] at hnil
      · intro t' ht' p hp'
        rcases hft : frameTimes es with _ | ⟨t1, rest⟩
        · simp only [frameTimes, hft, List.getLast?_singleton, Option.mem_def,
            Option.some.injEq] at ht'
          subst ht'
          rw [hsame hft] at hp'
          exact updateTrail_head_fresh M [q1, q2] s.trail t p hp'
        · refine hhead t' ?_ p hp'
          simp only [frameTimes, hft, List.getLast?_cons_cons, Option.mem_def] at ht'
          rw [hft]
          exact ht'

/-- A suffix of the progression `j*d, (j+1)*d, ...` whose first element is at
most `trailDuration` below the last element of the progression has at most
`trailDuration / d + 1` elements. -/
lemma progression_suffix_length (d : F) (hd : 0 < d) (j n : ℕ) (T : List F)
    (hsuf : T <:+ (List.range n).map (fun k => ((j + k : ℕ) : F) * d))
    (hhead : ∀ t ∈ ((List.range n).map (fun k => ((j + k : ℕ) : F) * d)).getLast?,
      ∀ x ∈ T.head?, t - x ≤ trailDuration) :
    (T.length : F) ≤ trailDuration / d + 1 := by
  have h20 : (0 : F) ≤ trailDuration / d :=
    div_nonneg (by norm_num [trailDuration]) hd.le
  rcases Nat.eq_zero_or_pos T.length with hzero | hpos
  · rw [hzero]
    push_cast
    linarith
  · have hlen : T.length ≤ n := by
      simpa using hsuf.length_le
    obtain ⟨m, hm⟩ : ∃ m, T.length = m + 1 := ⟨T.length - 1, by omega⟩
    obtain ⟨k, hk⟩ : ∃ k, n = k + (m + 1) := ⟨n - T.length, by omega⟩
    have hT := List.suffix_iff_eq_drop.mp hsuf
    simp only [List.length_map, List.length_range, hm, hk, Nat.add_sub_cancel] at hT
    have hx : T.head? = some (((j + k : ℕ) : F) * d) := by
      rw [hT, List.head?_drop, List.getElem?_map, List.getElem?_range (by omega)]
      rfl
    have hl : ((List.range n).map (fun k => ((j + k : ℕ) : F) * d)).getLast?
        = some (((j + (k + m) : ℕ) : F) * d) := by
      rw [List.getLast?_eq_getElem?, List.getElem?_map, List.length_map, List.length_range,
        List.getElem?_range (by omega)]
      simp only [Option.map_some']
      congr 3
      omega
    have hage := hhead _ hl _ hx
    push_cast at hage
    have hmd : (m : F) * d ≤ trailDuration := by
      have e : ((j : F) + ((k : F) + (m : F))) * d - ((j : F) + (k : F)) * d = (m : F) * d := by
        ring
      rw [e] at hage
      exact hage
    rw [hm]
    push_cast
    have hmle : (m : F) ≤ trailDuration / d := (le_div_iff₀ hd).mpr hmd
    linarith

end Lemmas

/-- C9, counterexample: with tick duration 20, two ticks from an empty trail
leave two samples, more than 20 / 20 = 1; this holds whether the ticks are
numbered from 0 (times 0 and 20) or from 1 (times 20 and 40). -/
theorem trail_exceeds_duration_over_tick :
    (∃ s', run realLibm initialState [.frame (0 * 20), .frame (1 * 20)] = some s' ∧
      (20 : ℝ) / 20 < (s'.trail.length : ℝ)) ∧
    (∃ s', run realLibm initialState [.frame (1 * 20), .frame (2 * 20)] = some s' ∧
      (20 : ℝ) / 20 < (s'.trail.length : ℝ)) := by
  constructor
  · obtain ⟨q1, q2, h1⟩ := update_two realLibm initialState _ _ 800 800 (0 * 20) rfl
    obtain ⟨r1, r2, h2⟩ := update_two realLibm
      { capture realLibm initialState 800 800 with
          pendulums := [q1, q2]
          trail := updateTrail realLibm [q1, q2] initialState.trail (0 * 20) }
      q1 q2 800 800 (1 * 20) rfl
    refine ⟨_, by simp only [run, step, h1, h2]; rfl, ?_⟩
    simp only [updateTrail, initialState, expire, refreshAlpha, trailDuration]
    norm_num [expire, trailDuration]
  · obtain ⟨q1, q2, h1⟩ := update_two realLibm initialState _ _ 800 800 (1 * 20) rfl
    obtain ⟨r1, r2, h2⟩ := update_two realLibm
      { capture realLibm initialState 800 800 with
          pendulums := [q1, q2]
          trail := updateTrail realLibm [q1, q2] initialState.trail (1 * 20) }
      q1 q2 800 800 (2 * 20) rfl
    refine ⟨_, by simp only [run, step, h1, h2]; rfl, ?_⟩
    simp only [updateTrail, initialState, expire, refreshAlpha, trailDuration]
    norm_num [expire, trailDuration]

/-- C9, amended: start from an empty trail and a two-link chain, and let the
host deliver any events whose frames come at the times `k * d` for `n`
consecutive `k` beginning at `j`, with `d > 0`.  The run returns and the
trail then holds at most `20 / d + 1` samples. -/
theorem trail_length_bound (d : ℝ) (hd : 0 < d) (j n : ℕ) (mp dr : Bool) (mx my : ℝ)
    (p1 p2 : Pendulum ℝ) (es : List (HostEvent ℝ))
    (hticks : frameTimes es = (List.range n).map (fun k => ((j + k : ℕ) : ℝ) * d)) :
    ∃ s', run realLibm ⟨mp, mx, my, dr, [p1, p2], []⟩ es = some s' ∧
      (s'.trail.length : ℝ) ≤ 20 / d + 1 := by
  obtain ⟨s', hrun, hsuf, -, hhead⟩ :=
    run_trail realLibm es ⟨mp, mx, my, dr, [p1, p2], []⟩ ⟨p1, p2, rfl⟩
  refine ⟨s', hrun, ?_⟩
  rw [hticks] at hsuf hhead
  simp only [List.map_nil, List.nil_append] at hsuf
  have hlen := progression_suffix_length d hd j n (s'.trail.map TrailPoint.timeStamp) hsuf
    (by
      intro t ht x hx
      rw [List.head?_map] at hx
      obtain ⟨p, hp, rfl⟩ := Option.map_eq_some'.mp hx
      exact hhead t ht p hp)
  rw [List.length_map] at hlen
  exact hlen

/-- Witness for C9: tick duration 20, the button pressed between two frames
at times 20 and 40. -/
theorem trail_length_bound_witness :
    (0 : ℝ) < 20 ∧
    frameTimes ([.frame 20, .mouseButton 0 1, .frame 40] : List (HostEvent ℝ))
      = (List.range 2).map (fun k => ((1 + k : ℕ) : ℝ) * 20) ∧
    ∃ s', run realLibm ⟨false, 0, 0, false, [⟨0, 0, 1, 1⟩, ⟨0, 0, 1, 1⟩], []⟩
        [.frame 20, .mouseButton 0 1, .frame 40] = some s' ∧
      (s'.trail.length : ℝ) ≤ 20 / 20 + 1 :=
  have hd : (0 : ℝ) < 20 := by norm_num
  have ht : frameTimes ([.frame 20, .mouseButton 0 1, .frame 40] : List (HostEvent ℝ))
      = (List.range 2).map (fun k => ((1 + k : ℕ) : ℝ) * 20) := by
    simp only [frameTimes, List.range, List.range.loop, List.map_cons, List.map_nil]
    norm_num
  ⟨hd, ht,
   trail_length_bound 20 hd 1 2 false false 0 0 ⟨0, 0, 1, 1⟩ ⟨0, 0, 1, 1⟩
     [.frame 20, .mouseButton 0 1, .frame 40] ht⟩

/-! ## The opacity law -/

section Lemmas

variable {F : Type} [LinearOrderedField F]

/-- The loop never pops a sample that is not older than `trailDuration`. -/
lemma mem_expire_of_fresh (t : F) (l : List (TrailPoint F)) (p : TrailPoint F)
    (hp : p ∈ l) (hfresh : t - p.timeStamp ≤ trailDuration) : p ∈ expire t l := by
  induction l with
  | nil => exact absurd hp (List.not_mem_nil p)
  | cons front rest ih =>
    unfold expire
    split_ifs with hold
    · rcases List.mem_cons.mp hp with rfl | hrest
      · exact absurd hold (not_lt.mpr hfresh)
      · exact ih hrest
    · exact hp

/-- The opacity loop writes `alpha` only. -/
lemma refreshAlpha_keeps (t : F) (l : List (TrailPoint F)) :
    (refreshAlpha t l).map (fun p => (p.x, p.y, p.timeStamp)) =
      l.map (fun p => (p.x, p.y, p.timeStamp)) := by
  simp [refreshAlpha, Function.comp_def]

/-- The trail that `update` leaves on a two-link chain is the trail part run on
the chain that it leaves. -/
lemma update_two_trail (M : Libm F) (s : State F) (p1 p2 : Pendulum F) (w h : Int) (t : F)
    (hs : s.pendulums = [p1, p2]) :
    ∃ s' q1 q2, update M s w h t = some s' ∧ s'.pendulums = [q1, q2] ∧
      s'.trail = updateTrail M s'.pendulums s.trail t := by
  obtain ⟨q1, q2, hq⟩ := update_two M s p1 p2 w h t hs
  exact ⟨_, q1, q2, hq, rfl, rfl⟩

end Lemmas

/-- C11: after `update` every retained sample has
`alpha = 1 - (currentTime - timeStamp) / 20`, so age 0 gives alpha 1 and age
exactly 20 gives alpha 0; a sample of the prior trail of age exactly 20 is
retained (with alpha 0); and the opacity loop changes no position and no
timestamp of what the expiry loop left. -/
theorem update_alpha_law (mp d : Bool) (mx my : ℝ) (p1 p2 : Pendulum ℝ)
    (trail : List (TrailPoint ℝ)) (w h : Int) (t : ℝ) :
    ∃ s', update realLibm ⟨mp, mx, my, d, [p1, p2], trail⟩ w h t = some s' ∧
      (∀ p ∈ s'.trail, p.alpha = 1 - (t - p.timeStamp) / 20) ∧
      (∀ p ∈ s'.trail, t - p.timeStamp = 0 → p.alpha = 1) ∧
      (∀ p ∈ s'.trail, t - p.timeStamp = 20 → p.alpha = 0) ∧
      (∀ p ∈ trail, t - p.timeStamp = 20 →
        ∃ q ∈ s'.trail, q.x = p.x ∧ q.y = p.y ∧ q.timeStamp = p.timeStamp ∧ q.alpha = 0) ∧
      s'.trail.map (fun p => (p.x, p.y, p.timeStamp)) =
        (expire t (trail ++
          [⟨(lastBob realLibm s'.pendulums).1, (lastBob realLibm s'.pendulums).2, 1, t⟩])).map
          (fun p => (p.x, p.y, p.timeStamp)) := by
  obtain ⟨s', q1, q2, hs', -, htrail⟩ :=
    update_two_trail realLibm ⟨mp, mx, my, d, [p1, p2], trail⟩ p1 p2 w h t rfl
  have hlaw : ∀ p ∈ s'.trail, p.alpha = 1 - (t - p.timeStamp) / 20 := by
    intro p hp
    rw [htrail] at hp
    obtain ⟨p0, -, rfl⟩ := (mem_refreshAlpha t _ p).mp hp
    rfl
  refine ⟨s', hs', hlaw, ?_, ?_, ?_, ?_⟩
  · intro p hp hage
    rw [hlaw p hp, hage]
    norm_num
  · intro p hp hage
    rw [hlaw p hp, hage]
    norm_num
  · intro p hp hage
    have hfresh : t - p.timeStamp ≤ trailDuration := by
      rw [hage]
      exact le_refl _
    have hkept := mem_expire_of_fresh t
      (trail ++ [⟨(lastBob realLibm s'.pendulums).1, (lastBob realLibm s'.pendulums).2, 1, t⟩])
      p (List.mem_append_left _ hp) hfresh
    refine ⟨{ p with alpha := 1 - (t - p.timeStamp) / trailDuration }, ?_, rfl, rfl, rfl, ?_⟩
    · rw [htrail]
      exact (mem_refreshAlpha t _ _).mpr ⟨p, hkept, rfl⟩
    · show 1 - (t - p.timeStamp) / trailDuration = 0
      rw [hage]
      norm_num [trailDuration]
  · rw [htrail]
    exact refreshAlpha_keeps t _

/-- Witness for C11: a trail stamped 10 and 25, ticked at time 30; the first
sample has age exactly 20 and is in the trail afterwards with alpha 0. -/
theorem update_alpha_law_witness :
    ∃ s', update realLibm
        ⟨false, 0, 0, false, [⟨0, 0, 1, 1⟩, ⟨0, 0, 1, 1⟩], [⟨7, 8, 1, 10⟩, ⟨0, 0, 1, 25⟩]⟩
        800 800 30 = some s' ∧
      ∃ q ∈ s'.trail, q.x = 7 ∧ q.y = 8 ∧ q.timeStamp = 10 ∧ q.alpha = 0 := by
  obtain ⟨s', hs', -, -, -, hkept, -⟩ :=
    update_alpha_law false false 0 0 ⟨0, 0, 1, 1⟩ ⟨0, 0, 1, 1⟩
      [⟨7, 8, 1, 10⟩, ⟨0, 0, 1, 25⟩] 800 800 30
  exact ⟨s', hs', hkept ⟨7, 8, 1, 10⟩ (List.mem_cons_self _ _) (by norm_num)⟩

/-! ## Coordinates and forward kinematics -/

/-- C12: for a positive viewport width `w` and height `h`,
`windowToOpenGLCoordinates` returns `outX = (x / w) * 6 - 3` and
`outY = ((h - y) / h) * 6 - 3`; the pixel `(w/2, h/2)` goes to `(0, 0)` and the
pixel `(0, 0)` goes to `(-3, 3)`. -/
theorem windowToOpenGLCoordinates_spec (x y : ℝ) (w h : Int) (hw : 0 < w) (hh : 0 < h) :
    windowToOpenGLCoordinates x y w h = ((x / w) * 6 - 3, ((h - y) / h) * 6 - 3) ∧
    windowToOpenGLCoordinates ((w : ℝ) / 2) ((h : ℝ) / 2) w h = (0, 0) ∧
    windowToOpenGLCoordinates (0 : ℝ) 0 w h = (-3, 3) := by
  have hw0 : (w : ℝ) ≠ 0 := Int.cast_ne_zero.mpr hw.ne.symm
  have hh0 : (h : ℝ) ≠ 0 := Int.cast_ne_zero.mpr hh.ne.symm
  refine ⟨rfl, ?_, ?_⟩
  · unfold windowToOpenGLCoordinates
    refine Prod.ext ?_ ?_
    · show (w : ℝ) / 2 / w * 6 - 3 = 0
      field_simp
      ring
    · show ((h : ℝ) - h / 2) / h * 6 - 3 = 0
      field_simp
      ring
  · unfold windowToOpenGLCoordinates
    refine Prod.ext ?_ ?_
    · show (0 : ℝ) / w * 6 - 3 = -3
      simp
    · show ((h : ℝ) - 0) / h * 6 - 3 = 3
      rw [sub_zero, div_self hh0]
      norm_num

/-- Witness for C12: the 800 by 800 window of `main`. -/
theorem windowToOpenGLCoordinates_spec_witness :
    windowToOpenGLCoordinates (200 : ℝ) 100 800 800
        = ((200 / ((800 : Int) : ℝ)) * 6 - 3, ((((800 : Int) : ℝ) - 100) / ((800 : Int) : ℝ)) * 6 - 3) ∧
    windowToOpenGLCoordinates ((((800 : Int) : ℝ)) / 2) ((((800 : Int) : ℝ)) / 2) 800 800 = (0, 0) ∧
    windowToOpenGLCoordinates (0 : ℝ) 0 800 800 = (-3, 3) :=
  windowToOpenGLCoordinates_spec 200 100 800 800 (by decide) (by decide)

/-- C13: the walk from the anchor `(0, 0)` along a two-link chain gives the
endpoints `(l1 sin a1, -l1 cos a1)` and
`(l1 sin a1 + l2 sin a2, -l1 cos a1 - l2 cos a2)`, the second being the
position that `update` uses for the last bob; with both angles 0 they are
`(0, -l1)` and `(0, -(l1 + l2))`. -/
theorem forward_kinematics (a1 w1 l1 m1 a2 w2 l2 m2 : ℝ) :
    display realLibm [⟨a1, w1, l1, m1⟩, ⟨a2, w2, l2, m2⟩] =
      [(l1 * Real.sin a1, -l1 * Real.cos a1),
       (l1 * Real.sin a1 + l2 * Real.sin a2, -l1 * Real.cos a1 - l2 * Real.cos a2)] ∧
    lastBob realLibm [⟨a1, w1, l1, m1⟩, ⟨a2, w2, l2, m2⟩] =
      (l1 * Real.sin a1 + l2 * Real.sin a2, -l1 * Real.cos a1 - l2 * Real.cos a2) ∧
    display realLibm [⟨0, w1, l1, m1⟩, ⟨0, w2, l2, m2⟩] = [(0, -l1), (0, -(l1 + l2))] ∧
    lastBob realLibm [⟨0, w1, l1, m1⟩, ⟨0, w2, l2, m2⟩] = (0, -(l1 + l2)) := by
  refine ⟨?_, ?_, ?_, ?_⟩
  · simp only [display, displayWalk, realLibm]
    simp
  · rw [lastBob_pair]
    simp only [realLibm]
    refine Prod.ext ?_ ?_
    · show 0 + l1 * Real.sin a1 + l2 * Real.sin a2 = l1 * Real.sin a1 + l2 * Real.sin a2
      ring
    · show 0 - l1 * Real.cos a1 - l2 * Real.cos a2 = -l1 * Real.cos a1 - l2 * Real.cos a2
      ring
  · simp only [display, displayWalk, realLibm, Real.sin_zero, Real.cos_zero]
    simp
    ring
  · rw [lastBob_pair]
    simp only [realLibm, Real.sin_zero, Real.cos_zero]
    refine Prod.ext ?_ ?_
    · show 0 + l1 * 0 + l2 * 0 = (0 : ℝ)
      ring
    · show 0 - l1 * 1 - l2 * 1 = -(l1 + l2)
      ring

/-! ## What `update` leaves alone -/

section Lemmas

variable {F : Type} [LinearOrderedField F]

/-- The physics branch writes `angle` and `angleSpeed` only. -/
lemma integrate_two_consts (M : Libm F) (p1 p2 : Pendulum F) :
    ∃ q1 q2, integrate M [p1, p2] = some [q1, q2] ∧
      q1.length = p1.length ∧ q1.mass = p1.mass ∧
      q2.length = p2.length ∧ q2.mass = p2.mass :=
  ⟨_, _, rfl, rfl, rfl, rfl, rfl⟩

/-- The chain that `update` leaves on a two-link chain: the physics step of
the old chain when the capture test leaves the controller Free, the old
chain with its outer link overridden otherwise. -/
lemma update_two_chain (M : Libm F) (s : State F) (p1 p2 : Pendulum F) (w h : Int) (t : F)
    (hs : s.pendulums = [p1, p2]) :
    ∃ s', update M s w h t = some s' ∧
      s'.mousePressed = s.mousePressed ∧
      s'.draggingLastPendulum = (capture M s w h).draggingLastPendulum ∧
      some s'.pendulums =
        (if (capture M s w h).draggingLastPendulum then dragLast M s w h
         else integrate M [p1, p2]) := by
  cases hd : (capture M s w h).draggingLastPendulum
  · obtain ⟨q1, q2, hq⟩ := integrate_two M p1 p2
    rw [update_of_free M s w h t hd, hs, hq]
    exact ⟨_, rfl, capture_mousePressed M s w h, hd, rfl⟩
  · rw [update_of_drag M s w h t hd, dragLast_two M s p1 p2 w h hs]
    exact ⟨_, rfl, capture_mousePressed M s w h, hd, rfl⟩

end Lemmas

/-- C14: in the Free as in the Dragging branch `update` leaves a chain of
exactly two links whose lengths and masses are those it was given; the
button handler and the cursor handler do not modify the chain. -/
theorem update_keeps_link_constants (mp d : Bool) (mx my : ℝ) (p1 p2 : Pendulum ℝ)
    (trail : List (TrailPoint ℝ)) (w h : Int) (t : ℝ)
    (s : State ℝ) (button action : Int) (xpos ypos : ℝ) :
    (∃ s' q1 q2, update realLibm ⟨mp, mx, my, d, [p1, p2], trail⟩ w h t = some s' ∧
      s'.pendulums = [q1, q2] ∧
      q1.length = p1.length ∧ q1.mass = p1.mass ∧
      q2.length = p2.length ∧ q2.mass = p2.mass) ∧
    (mouseButtonCallback s button action).pendulums = s.pendulums ∧
    (cursorPositionCallback s xpos ypos).pendulums = s.pendulums := by
  refine ⟨?_, mouseButtonCallback_pendulums s button action, rfl⟩
  obtain ⟨s', hs', -, -, hchain⟩ :=
    update_two_chain realLibm ⟨mp, mx, my, d, [p1, p2], trail⟩ p1 p2 w h t rfl
  cases hd : (capture realLibm ⟨mp, mx, my, d, [p1, p2], trail⟩ w h).draggingLastPendulum
  · obtain ⟨q1, q2, hq, hc⟩ := integrate_two_consts realLibm p1 p2
    rw [hd, hq] at hchain
    exact ⟨s', q1, q2, hs', Option.some.inj hchain, hc⟩
  · rw [hd, dragLast_two realLibm _ p1 p2 w h rfl] at hchain
    exact ⟨s', _, _, hs', Option.some.inj hchain, rfl, rfl, rfl, rfl⟩

/-- C18: two calls of `update` that agree on the chain, the pointer, the two
flags and the viewport, and differ in `currentTime` and in the trail, leave
the same chain and the same flags; the step of the physics is the constant
`deltaTime = 0.016`. -/
theorem chain_independent_of_clock_and_trail (mp d : Bool) (mx my : ℝ)
    (p1 p2 : Pendulum ℝ) (trailA trailB : List (TrailPoint ℝ)) (w h : Int) (tA tB : ℝ) :
    ∃ sA sB,
      update realLibm ⟨mp, mx, my, d, [p1, p2], trailA⟩ w h tA = some sA ∧
      update realLibm ⟨mp, mx, my, d, [p1, p2], trailB⟩ w h tB = some sB ∧
      sA.pendulums = sB.pendulums ∧
      sA.draggingLastPendulum = sB.draggingLastPendulum ∧
      sA.mousePressed = sB.mousePressed ∧
      (deltaTime : ℝ) = 0.016 := by
  obtain ⟨sA, hA, hpA, hdA, hcA⟩ :=
    update_two_chain realLibm ⟨mp, mx, my, d, [p1, p2], trailA⟩ p1 p2 w h tA rfl
  obtain ⟨sB, hB, hpB, hdB, hcB⟩ :=
    update_two_chain realLibm ⟨mp, mx, my, d, [p1, p2], trailB⟩ p1 p2 w h tB rfl
  have hcap : (capture realLibm ⟨mp, mx, my, d, [p1, p2], trailA⟩ w h).draggingLastPendulum =
      (capture realLibm ⟨mp, mx, my, d, [p1, p2], trailB⟩ w h).draggingLastPendulum := by
    rw [Bool.eq_iff_iff, capture_dragging, capture_dragging]
  have hdrag : dragLast realLibm ⟨mp, mx, my, d, [p1, p2], trailA⟩ w h =
      dragLast realLibm ⟨mp, mx, my, d, [p1, p2], trailB⟩ w h := rfl
  refine ⟨sA, sB, hA, hB, ?_, ?_, ?_, rfl⟩
  · rw [hcap, hdrag, ← hcB] at hcA
    exact Option.some.inj hcA
  · rw [hdA, hdB, hcap]
  · rw [hpA, hpB]

/-! ## What the expiry loop keeps -/

section Lemmas

variable {F : Type} [LinearOrderedField F]

/-- Every suffix that starts at a sample not older than `trailDuration` lies
within what the loop returns. -/
lemma expire_longest (t : F) (l l' : List (TrailPoint F)) (hsuf : l' <:+ l)
    (hhead : ∀ p ∈ l'.head?, t - p.timeStamp ≤ trailDuration) : l' <:+ expire t l := by
  induction l with
  | nil => exact hsuf
  | cons front rest ih =>
    unfold expire
    split_ifs with hold
    · rcases List.suffix_cons_iff.mp hsuf with rfl | hrest
      · exact absurd hold (not_lt.mpr (hhead front rfl))
      · exact ih hrest
    · exact hsuf

/-- On a trail with non-decreasing timestamps the loop is a filter. -/
lemma expire_eq_filter (t : F) (fresh : TrailPoint F → Bool)
    (hfresh : ∀ p, fresh p = true ↔ t - p.timeStamp ≤ trailDuration)
    (l : List (TrailPoint F)) (hs : (l.map TrailPoint.timeStamp).Sorted (· ≤ ·)) :
    expire t l = l.filter fresh := by
  induction l with
  | nil => rfl
  | cons front rest ih =>
    rw [List.map_cons, List.sorted_cons] at hs
    unfold expire
    split_ifs with hold
    · have hfront : ¬ fresh front = true := fun hf => not_lt.mpr ((hfresh front).mp hf) hold
      rw [List.filter_cons_of_neg hfront]
      exact ih hs.2
    · symm
      refine List.filter_eq_self.mpr ?_
      intro p hp
      rcases List.mem_cons.mp hp with rfl | hrest
      · exact (hfresh _).mpr (not_lt.mp hold)
      · have hle : front.timeStamp ≤ p.timeStamp :=
          hs.1 _ (List.mem_map_of_mem TrailPoint.timeStamp hrest)
        have hf : t - front.timeStamp ≤ trailDuration := not_lt.mp hold
        exact (hfresh p).mpr (by linarith)

/-- The newest sample after the trail part of `update`. -/
lemma updateTrail_getLast (M : Libm F) (ps : List (Pendulum F))
    (trail : List (TrailPoint F)) (t : F) :
    (updateTrail M ps trail t).getLast? = some ⟨(lastBob M ps).1, (lastBob M ps).2, 1, t⟩ := by
  have hfresh : t - t ≤ (trailDuration : F) := by
    simp [trailDuration]
  unfold updateTrail
  simp only []
  rw [expire_append_fresh t trail ⟨(lastBob M ps).1, (lastBob M ps).2, 1, t⟩ hfresh]
  simp [refreshAlpha]

end Lemmas

/-- C15: the expiry loop of `update` returns the longest suffix of the old
trail followed by the new sample whose oldest element has age at most 20, and
it drops no sample of age at most 20.  When the old trail's timestamps are
non-decreasing and `currentTime` is at least the newest of them, what it
returns is exactly the samples of age at most 20, in their order. -/
theorem expire_keeps_all_fresh (mp d : Bool) (mx my : ℝ) (p1 p2 : Pendulum ℝ)
    (trail : List (TrailPoint ℝ)) (w h : Int) (t : ℝ) :
    ∃ s' fed, update realLibm ⟨mp, mx, my, d, [p1, p2], trail⟩ w h t = some s' ∧
      fed = trail ++
        [⟨(lastBob realLibm s'.pendulums).1, (lastBob realLibm s'.pendulums).2, 1, t⟩] ∧
      s'.trail = refreshAlpha t (expire t fed) ∧
      expire t fed <:+ fed ∧
      (∀ p ∈ (expire t fed).head?, t - p.timeStamp ≤ 20) ∧
      (∀ l', l' <:+ fed → (∀ p ∈ l'.head?, t - p.timeStamp ≤ 20) → l' <:+ expire t fed) ∧
      (∀ p ∈ fed, t - p.timeStamp ≤ 20 → p ∈ expire t fed) ∧
      ((trail.map TrailPoint.timeStamp).Sorted (· ≤ ·) →
        (∀ p ∈ trail.getLast?, p.timeStamp ≤ t) →
        expire t fed = fed.filter (fun p => decide (t - p.timeStamp ≤ 20))) := by
  obtain ⟨s', q1, q2, hs', -, htrail⟩ :=
    update_two_trail realLibm ⟨mp, mx, my, d, [p1, p2], trail⟩ p1 p2 w h t rfl
  refine ⟨s', _, hs', rfl, htrail, expire_suffix t _, expire_head_fresh t _, ?_, ?_, ?_⟩
  · intro l' hsuf hhead
    exact expire_longest t _ l' hsuf hhead
  · intro p hp hage
    exact mem_expire_of_fresh t _ p hp hage
  · intro hsorted hnew
    have hle := le_of_sorted_of_getLast t trail hsorted hnew
    refine expire_eq_filter t _ (fun p => ?_) _
      (sorted_append_new t trail _ hsorted hle rfl)
    simp [trailDuration]

/-- Witness for C15: a trail stamped 0, 10 and 25, ticked at time 30; the
sample of age 30 goes, the sample of age exactly 20 stays. -/
theorem expire_keeps_all_fresh_witness :
    ∃ s' fed, update realLibm
        ⟨false, 0, 0, false, [⟨0, 0, 1, 1⟩, ⟨0, 0, 1, 1⟩],
          [⟨0, 0, 1, 0⟩, ⟨7, 8, 1, 10⟩, ⟨0, 0, 1, 25⟩]⟩ 800 800 30 = some s' ∧
      fed = [⟨0, 0, 1, 0⟩, ⟨7, 8, 1, 10⟩, ⟨0, 0, 1, 25⟩] ++
        [⟨(lastBob realLibm s'.pendulums).1, (lastBob realLibm s'.pendulums).2, 1, 30⟩] ∧
      (⟨7, 8, 1, 10⟩ : TrailPoint ℝ) ∈ expire 30 fed ∧
      expire 30 fed = fed.filter (fun p => decide ((30 : ℝ) - p.timeStamp ≤ 20)) := by
  obtain ⟨s', fed, hs', hfed, -, -, -, -, hkept, hfilter⟩ :=
    expire_keeps_all_fresh false false 0 0 ⟨0, 0, 1, 1⟩ ⟨0, 0, 1, 1⟩
      [⟨0, 0, 1, 0⟩, ⟨7, 8, 1, 10⟩, ⟨0, 0, 1, 25⟩] 800 800 30
  refine ⟨s', fed, hs', hfed, hkept _ ?_ ?_, hfilter ?_ ?_⟩
  · rw [hfed]
    simp
  · norm_num
  · simp
    norm_num
  · intro p hp
    simp only [List.getLast?_cons_cons, List.getLast?_singleton, Option.mem_def,
      Option.some.injEq] at hp
    subst hp
    norm_num

/-! ## The divisors of the physics step -/

/-- The physics branch divides by `denom1` and by `denom2`, and by nothing
else. -/
lemma integrate_divides_by_denoms {F : Type} [LinearOrderedField F] (M : Libm F)
    (p1 p2 : Pendulum F) :
    integrate M [p1, p2] =
      some
        [{ p1 with
            angle := p1.angle +
              (p1.angleSpeed +
                (-gravity * (2 * p1.mass + p2.mass) * M.sin p1.angle
                  + -p2.mass * gravity * M.sin (p1.angle - 2 * p2.angle)
                  + -2 * M.sin (p1.angle - p2.angle) * p2.mass
                    * (p2.angleSpeed * p2.angleSpeed * p2.length
                      + p1.angleSpeed * p1.angleSpeed * p1.length
                        * M.cos (p1.angle - p2.angle)))
                  / denom1 M p1 p2 * deltaTime) * damping * deltaTime
            angleSpeed :=
              (p1.angleSpeed +
                (-gravity * (2 * p1.mass + p2.mass) * M.sin p1.angle
                  + -p2.mass * gravity * M.sin (p1.angle - 2 * p2.angle)
                  + -2 * M.sin (p1.angle - p2.angle) * p2.mass
                    * (p2.angleSpeed * p2.angleSpeed * p2.length
                      + p1.angleSpeed * p1.angleSpeed * p1.length
                        * M.cos (p1.angle - p2.angle)))
                  / denom1 M p1 p2 * deltaTime) * damping },
         { p2 with
            angle := p2.angle +
              (p2.angleSpeed +
                2 * M.sin (p1.angle - p2.angle)
                  * (p1.angleSpeed * p1.angleSpeed * p1.length * (p1.mass + p2.mass)
                    + gravity * (p1.mass + p2.mass) * M.cos p1.angle
                    + p2.angleSpeed * p2.angleSpeed * p2.length * p2.mass
                      * M.cos (p1.angle - p2.angle))
                  / denom2 M p1 p2 * deltaTime) * damping * deltaTime
            angleSpeed :=
              (p2.angleSpeed +
                2 * M.sin (p1.angle - p2.angle)
                  * (p1.angleSpeed * p1.angleSpeed * p1.length * (p1.mass + p2.mass)
                    + gravity * (p1.mass + p2.mass) * M.cos p1.angle
                    + p2.angleSpeed * p2.angleSpeed * p2.length * p2.mass
                      * M.cos (p1.angle - p2.angle))
                  / denom2 M p1 p2 * deltaTime) * damping }] :=
  rfl

/-- The shared factor of the two divisors is at least `2 * m1`. -/
lemma two_mass_le_factor (a1 a2 m1 m2 : ℝ) (hm2 : 0 < m2) :
    2 * m1 ≤ 2 * m1 + m2 - m2 * Real.cos (2 * a1 - 2 * a2) := by
  have hcos : m2 * Real.cos (2 * a1 - 2 * a2) ≤ m2 * 1 :=
    mul_le_mul_of_nonneg_left (Real.cos_le_one _) hm2.le
  linarith

/-- C16: for positive masses and lengths and any angles, the two divisors of
the physics step, `l1 * (2 m1 + m2 - m2 cos(2 a1 - 2 a2))` and
`l2 * (2 m1 + m2 - m2 cos(2 a1 - 2 a2))`, are at least `2 m1 l1` and
`2 m1 l2`, hence strictly positive: no angles make them zero. -/
theorem denominators_positive (a1 w1 l1 m1 a2 w2 l2 m2 : ℝ)
    (hl1 : 0 < l1) (hm1 : 0 < m1) (hl2 : 0 < l2) (hm2 : 0 < m2) :
    denom1 realLibm ⟨a1, w1, l1, m1⟩ ⟨a2, w2, l2, m2⟩
      = l1 * (2 * m1 + m2 - m2 * Real.cos (2 * a1 - 2 * a2)) ∧
    denom2 realLibm ⟨a1, w1, l1, m1⟩ ⟨a2, w2, l2, m2⟩
      = l2 * (2 * m1 + m2 - m2 * Real.cos (2 * a1 - 2 * a2)) ∧
    2 * m1 * l1 ≤ denom1 realLibm ⟨a1, w1, l1, m1⟩ ⟨a2, w2, l2, m2⟩ ∧
    0 < denom1 realLibm ⟨a1, w1, l1, m1⟩ ⟨a2, w2, l2, m2⟩ ∧
    2 * m1 * l2 ≤ denom2 realLibm ⟨a1, w1, l1, m1⟩ ⟨a2, w2, l2, m2⟩ ∧
    0 < denom2 realLibm ⟨a1, w1, l1, m1⟩ ⟨a2, w2, l2, m2⟩ := by
  have hfac := two_mass_le_factor a1 a2 m1 m2 hm2
  have h1 : 2 * m1 * l1 ≤ l1 * (2 * m1 + m2 - m2 * Real.cos (2 * a1 - 2 * a2)) := by
    have := mul_le_mul_of_nonneg_left hfac hl1.le
    linarith
  have h2 : 2 * m1 * l2 ≤ l2 * (2 * m1 + m2 - m2 * Real.cos (2 * a1 - 2 * a2)) := by
    have := mul_le_mul_of_nonneg_left hfac hl2.le
    linarith
  have hp1 : 0 < 2 * m1 * l1 := by positivity
  have hp2 : 0 < 2 * m1 * l2 := by positivity
  exact ⟨rfl, rfl, h1, lt_of_lt_of_le hp1 h1, h2, lt_of_lt_of_le hp2 h2⟩

/-- Witness for C16: unit masses and lengths, angles 1 and 2. -/
theorem denominators_positive_witness :
    2 * 1 * 1 ≤ denom1 realLibm ⟨1, 0, 1, 1⟩ ⟨2, 0, 1, 1⟩ ∧
    0 < denom1 realLibm ⟨1, 0, 1, 1⟩ ⟨2, 0, 1, 1⟩ ∧
    2 * 1 * 1 ≤ denom2 realLibm ⟨1, 0, 1, 1⟩ ⟨2, 0, 1, 1⟩ ∧
    0 < denom2 realLibm ⟨1, 0, 1, 1⟩ ⟨2, 0, 1, 1⟩ :=
  (denominators_positive 1 0 1 1 2 0 1 1 one_pos one_pos one_pos one_pos).2.2

/-! ## Hanging rest -/

/-- C17: a chain with positive masses and lengths that hangs at rest (both
angles 0, both angular velocities 0) is left exactly so by a Free tick of
`update`: both divisors are non-zero, both accelerations are 0, and the
sample appended to the trail is at `(0, -(l1 + l2))`. -/
theorem hanging_rest_fixed_point (mp : Bool) (mx my l1 m1 l2 m2 : ℝ)
    (trail : List (TrailPoint ℝ)) (w h : Int) (t : ℝ)
    (hl1 : 0 < l1) (hm1 : 0 < m1) (hl2 : 0 < l2) (hm2 : 0 < m2)
    (hfree : ¬ (mp = true ∧
      Real.sqrt
        ((0 - (windowToOpenGLCoordinates mx my w h).1) ^ 2
          + (-(l1 + l2) - (windowToOpenGLCoordinates mx my w h).2) ^ 2) < 0.1)) :
    ∃ s', update realLibm ⟨mp, mx, my, false, [⟨0, 0, l1, m1⟩, ⟨0, 0, l2, m2⟩], trail⟩ w h t
        = some s' ∧
      s'.pendulums = [⟨0, 0, l1, m1⟩, ⟨0, 0, l2, m2⟩] ∧
      s'.trail.getLast? = some ⟨0, -(l1 + l2), 1, t⟩ ∧
      denom1 realLibm ⟨0, 0, l1, m1⟩ ⟨0, 0, l2, m2⟩ ≠ 0 ∧
      denom2 realLibm ⟨0, 0, l1, m1⟩ ⟨0, 0, l2, m2⟩ ≠ 0 ∧
      (-gravity * (2 * m1 + m2) * Real.sin 0 + -m2 * gravity * Real.sin (0 - 2 * 0)
          + -2 * Real.sin (0 - 0) * m2 * (0 * 0 * l2 + 0 * 0 * l1 * Real.cos (0 - 0)))
        / denom1 realLibm ⟨0, 0, l1, m1⟩ ⟨0, 0, l2, m2⟩ = 0 ∧
      2 * Real.sin (0 - 0)
          * (0 * 0 * l1 * (m1 + m2) + gravity * (m1 + m2) * Real.cos 0
            + 0 * 0 * l2 * m2 * Real.cos (0 - 0))
        / denom2 realLibm ⟨0, 0, l1, m1⟩ ⟨0, 0, l2, m2⟩ = 0 := by
  have hfac := two_mass_le_factor 0 0 m1 m2 hm2
  have hd1 : denom1 realLibm ⟨0, 0, l1, m1⟩ ⟨0, 0, l2, m2⟩ ≠ 0 := by
    have : 0 < l1 * (2 * m1 + m2 - m2 * Real.cos (2 * 0 - 2 * 0)) :=
      mul_pos hl1 (by linarith)
    exact ne_of_gt this
  have hd2 : denom2 realLibm ⟨0, 0, l1, m1⟩ ⟨0, 0, l2, m2⟩ ≠ 0 := by
    have : 0 < l2 * (2 * m1 + m2 - m2 * Real.cos (2 * 0 - 2 * 0)) :=
      mul_pos hl2 (by linarith)
    exact ne_of_gt this
  have hacc1 : (-gravity * (2 * m1 + m2) * Real.sin 0 + -m2 * gravity * Real.sin (0 - 2 * 0)
        + -2 * Real.sin (0 - 0) * m2 * (0 * 0 * l2 + 0 * 0 * l1 * Real.cos (0 - 0)))
      / denom1 realLibm ⟨0, 0, l1, m1⟩ ⟨0, 0, l2, m2⟩ = 0 := by
    simp
  have hacc2 : 2 * Real.sin (0 - 0)
        * (0 * 0 * l1 * (m1 + m2) + gravity * (m1 + m2) * Real.cos 0
          + 0 * 0 * l2 * m2 * Real.cos (0 - 0))
      / denom2 realLibm ⟨0, 0, l1, m1⟩ ⟨0, 0, l2, m2⟩ = 0 := by
    simp
  have hd : (capture realLibm ⟨mp, mx, my, false, [⟨0, 0, l1, m1⟩, ⟨0, 0, l2, m2⟩], trail⟩
      w h).draggingLastPendulum = false := by
    rw [← Bool.not_eq_true, capture_dragging_two]
    simp only [Real.sin_zero, Real.cos_zero, mul_zero, mul_one, add_zero]
    simpa using hfree
  have hstep : integrate realLibm [⟨0, 0, l1, m1⟩, ⟨0, 0, l2, m2⟩]
      = some [⟨0, 0, l1, m1⟩, ⟨0, 0, l2, m2⟩] := by
    rw [integrate_divides_by_denoms]
    simp only [realLibm] at hacc1 hacc2 ⊢
    simp only [hacc1, hacc2]
    simp
  rw [update_of_free _ _ _ _ _ hd, hstep]
  refine ⟨_, rfl, rfl, ?_, hd1, hd2, hacc1, hacc2⟩
  show (updateTrail realLibm [⟨0, 0, l1, m1⟩, ⟨0, 0, l2, m2⟩] trail t).getLast? = _
  rw [updateTrail_getLast, lastBob_pair]
  simp only [realLibm, Real.sin_zero, Real.cos_zero]
  congr 2
  · ring
  · ring

/-- Witness for C17: unit masses and lengths, the button up. -/
theorem hanging_rest_fixed_point_witness :
    ∃ s', update realLibm ⟨false, 0, 0, false, [⟨0, 0, 1, 1⟩, ⟨0, 0, 1, 1⟩], []⟩ 800 800 5
        = some s' ∧
      s'.pendulums = [⟨0, 0, 1, 1⟩, ⟨0, 0, 1, 1⟩] ∧
      s'.trail.getLast? = some ⟨0, -(1 + 1), 1, 5⟩ := by
  obtain ⟨s', hs', hp, ht, -⟩ :=
    hanging_rest_fixed_point false 0 0 1 1 1 1 [] 800 800 5 one_pos one_pos one_pos one_pos
      (fun hc => Bool.false_ne_true hc.1)
  exact ⟨s', hs', hp, ht⟩

end DoublePendulum
